import Mathlib

/-!
Shallow embedding of the planning pipeline of
`frontend/src/services/simpleWorkflowService.ts` (class `SimpleWorkflowService`),
together with proofs about the claims of the specification.

Conventions of the embedding:
* JavaScript numbers are modelled by exact rationals (`ℚ`), extended with the
  three non-finite values `NaN`, `-Infinity`, `+Infinity` (type `JSNum`) where
  the source can produce them. Decimal literals of the source are read as the
  exact rationals they denote.
* Dates are modelled by their numeric timestamps (`ℤ`), as the source only ever
  compares `new Date(s).getTime()` values.
* Strings (item ids, names, feedback text) are Lean `String`s;
  `String.toLowerCase` / `includes` are modelled character-wise.
* The optional LLM collaborator only produces explanation strings; the spec
  (§6) requires all numeric outputs to be identical with or without it, so the
  embedding uses the deterministic fallback strings throughout.
-/

namespace AgentFlow

/-- A JavaScript number: `NaN`, `-Infinity`, `+Infinity`, or a finite value
(modelled as an exact rational). -/
inductive JSNum where
  | nan
  | negInf
  | posInf
  | val (q : ℚ)
deriving DecidableEq, Repr

/-- JavaScript multiplication on `JSNum` (IEEE-754 sign/NaN rules). -/
def jsMul : JSNum → JSNum → JSNum
  | .nan, _ => .nan
  | _, .nan => .nan
  | .posInf, .posInf => .posInf
  | .posInf, .negInf => .negInf
  | .negInf, .posInf => .negInf
  | .negInf, .negInf => .posInf
  | .posInf, .val b => if 0 < b then .posInf else if b < 0 then .negInf else .nan
  | .val a, .posInf => if 0 < a then .posInf else if a < 0 then .negInf else .nan
  | .negInf, .val b => if 0 < b then .negInf else if b < 0 then .posInf else .nan
  | .val a, .negInf => if 0 < a then .negInf else if a < 0 then .posInf else .nan
  | .val a, .val b => .val (a * b)

/-- JavaScript addition on `JSNum` (IEEE-754 rules; `∞ + (-∞) = NaN`). -/
def jsAdd : JSNum → JSNum → JSNum
  | .nan, _ => .nan
  | _, .nan => .nan
  | .posInf, .negInf => .nan
  | .negInf, .posInf => .nan
  | .posInf, _ => .posInf
  | _, .posInf => .posInf
  | .negInf, _ => .negInf
  | _, .negInf => .negInf
  | .val a, .val b => .val (a + b)

/-- JavaScript division of two finite numbers: `x / 0` is `±Infinity`
(sign of `x`) and `0 / 0` is `NaN`; otherwise exact. -/
def jsDivV (a b : ℚ) : JSNum :=
  if b = 0 then
    if 0 < a then .posInf else if a < 0 then .negInf else .nan
  else
    .val (a / b)

/-- `Math.max(0, x)` on `JSNum` (`Math.max(0, NaN) = NaN`,
`Math.max(0, -Infinity) = 0`). -/
def jsMax0 : JSNum → JSNum
  | .nan => .nan
  | .negInf => .val 0
  | .posInf => .posInf
  | .val a => .val (max 0 a)

/-- `Math.ceil` on `JSNum` (non-finite values propagate). -/
def jsCeil : JSNum → JSNum
  | .nan => .nan
  | .negInf => .negInf
  | .posInf => .posInf
  | .val a => .val (⌈a⌉ : ℤ)

/-- Body of `inverseNormalCDF` for a finite argument `0 < p < 1`
(method `inverseNormalCDF`, the two reachable regimes). The source's third
regime (`p ≥ 5`, a `sqrt`/`log` tail formula) is unreachable for `0 < p < 1`
and is kept here as a dead branch returning `0`. -/
def inverseNormalCDFBody (p : ℚ) : ℚ :=
  let a0 : ℚ := -39.69683028665376
  let a1 : ℚ := 220.9460984245205
  let a2 : ℚ := -275.9285104469687
  let a3 : ℚ := 138.3577518672690
  let a4 : ℚ := -30.66479806614201
  let a5 : ℚ := 2.506628277459239
  let b1 : ℚ := -54.47609879822406
  let b2 : ℚ := 161.5858368580409
  let b3 : ℚ := -155.6989798598866
  let b4 : ℚ := 66.80131188771972
  let b5 : ℚ := -13.28068155288572
  let split1 : ℚ := 0.425
  let split2 : ℚ := 5.0
  let const1 : ℚ := 0.180625
  if p < split1 then
    let r := const1 - p * p
    p * (((((a5 * r + a4) * r + a3) * r + a2) * r + a1) * r + a0) /
      (((((b5 * r + b4) * r + b3) * r + b2) * r + b1) * r + 1)
  else if p < split2 then
    let r := p - 0.5
    let r2 := r * r
    (((((a5 * r2 + a4) * r2 + a3) * r2 + a2) * r2 + a1) * r2 + a0) * r /
      (((((b5 * r2 + b4) * r2 + b3) * r2 + b2) * r2 + b1) * r2 + 1)
  else
    0

/-- Method `inverseNormalCDF`: `p ≤ 0 ↦ -Infinity`, `p ≥ 1 ↦ +Infinity`,
otherwise the rational-polynomial body. A `NaN` argument falls through every
comparison in the source and comes out as `NaN`. -/
def inverseNormalCDF : JSNum → JSNum
  | .nan => .nan
  | .negInf => .negInf
  | .posInf => .posInf
  | .val p =>
    if p ≤ 0 then .negInf
    else if 1 ≤ p then .posInf
    else .val (inverseNormalCDFBody p)

/-- Method `calculateNewsvendorQuantity(demand, confidenceLow, confidenceHigh,
holdingCost, shortageCost)`. -/
def calculateNewsvendorQuantity (demand confidenceLow confidenceHigh
    holdingCost shortageCost : ℚ) : JSNum :=
  let mean := demand
  let stdDev := (confidenceHigh - confidenceLow) / (2 * 1.96)
  let p := shortageCost + 10
  let c := holdingCost
  let s : ℚ := 0
  let criticalRat := jsDivV (p - c) (p - s)
  let zScore := inverseNormalCDF criticalRat
  let optimalQuantity := jsAdd (.val mean) (jsMul (.val stdDev) zScore)
  jsCeil (jsMax0 optimalQuantity)

/-! String helpers modelling `String.prototype.toLowerCase` and
`String.prototype.includes` (character-wise; ids, names and feedback texts in
this code base are ASCII). -/

/-- Lower-case a string character-wise. -/
def strLower (s : String) : String :=
  ⟨s.data.map Char.toLower⟩

/-- `pat` occurs at the start of `l`. -/
def charsHavePfx : List Char → List Char → Bool
  | _, [] => true
  | [], _ :: _ => false
  | a :: as, b :: bs => a == b && charsHavePfx as bs

/-- `pat` occurs somewhere inside `l` (JavaScript `includes`). -/
def charsHaveSub : List Char → List Char → Bool
  | [], pat => pat.isEmpty
  | a :: as, pat => charsHavePfx (a :: as) pat || charsHaveSub as pat

/-- JavaScript `s.includes(pat)`. -/
def strContains (s pat : String) : Bool :=
  charsHaveSub s.data pat.data

/-- Insert into a list sorted by strictly descending `key`, before the first
element with a key not larger than `x`'s (so earlier-inserted elements keep
their place among equal keys). -/
def insertDescBy {α : Type} (key : α → ℤ) (x : α) : List α → List α
  | [] => [x]
  | y :: ys => if key y ≤ key x then x :: y :: ys else y :: insertDescBy key x ys

/-- Stable sort by descending `key`, modelling the JavaScript
`arr.sort((a, b) => keyOf(b) - keyOf(a))` calls of the source (stable per the
ECMAScript specification). -/
def sortDescBy {α : Type} (key : α → ℤ) (l : List α) : List α :=
  l.foldr (insertDescBy key) []

/-! The data model (`types/workflow.ts` and the CSV row shapes of
`csvParser.ts` / the private parse methods of `SimpleWorkflowService`). -/

/-- Row of `SKU_Costs.csv` (method `parseSKUCostCSV`): per-product holding and
shortage costs. The parsed object map is modelled as an association list keyed
by the bare product id. -/
structure CostEntry where
  holdingCost : ℚ
  shortageCost : ℚ
deriving DecidableEq, Repr

/-- The SKU cost table `skuCostData`. -/
abbrev CostTable := List (String × CostEntry)

/-- Row of `budget_df.csv` (method `parseBudgetCSV`); the date string is
modelled by its numeric timestamp. -/
structure BudgetRecord where
  dateMs : ℤ
  budget : ℚ
deriving DecidableEq, Repr

/-- Row of `warehouse_constraints.csv` (method `parseWarehouseConstraintsCSV`). -/
structure CapacityRecord where
  dateMs : ℤ
  capacity : ℚ
  warehouse : ℤ
deriving DecidableEq, Repr

/-- Parsed forecast row (`CSVPrediction` of `csvParser.ts`), restricted to the
fields the planning pipeline reads. `confidence_score` is `none` when the
record carries no explicit score (`undefined` in the source). -/
structure CSVPrediction where
  item_id : String
  name : String
  yhat : ℚ
  lo : ℚ
  hi : ℚ
  confidence_score : Option ℚ
  dateMs : ℤ
deriving DecidableEq, Repr

/-- `DemandResult` of `types/workflow.ts`. -/
structure DemandResult where
  itemId : String
  itemName : String
  targetQuantity : ℚ
  confidence : ℚ
  reasoning : String
deriving DecidableEq, Repr

/-- `PlanItem` of `types/workflow.ts`. -/
structure PlanItem where
  itemId : String
  itemName : String
  quantity : ℚ
  unitCost : ℚ
  totalCost : ℚ
deriving DecidableEq, Repr

/-- `SimplePlan` of `types/workflow.ts`. -/
structure SimplePlan where
  items : List PlanItem
  totalCost : ℚ
  totalUnits : ℚ
  reasoning : String
deriving DecidableEq, Repr

/-- The workflow status union type. -/
inductive WStatus where
  | ready
  | running
  | waitingForInput
  | complete
deriving DecidableEq, Repr

/-- `WorkflowState` of `types/workflow.ts`. Chat messages are modelled by
their text (the source also attaches a random id and a timestamp); the
human-input record by its feedback text. -/
structure WorkflowState where
  status : WStatus
  demandResults : List DemandResult
  purchasePlan : Option SimplePlan
  messages : List String
  agentChat : List String
  awaitingHumanInput : Bool
  humanInput : Option String
  showResults : Bool
deriving DecidableEq, Repr

/-- Method `getCurrentBudget`: the fallback `10000` on an empty table,
otherwise the budget of the **last** array entry
(`budgetData[budgetData.length - 1]`). -/
def getCurrentBudget (budgetData : List BudgetRecord) : ℚ :=
  match budgetData.getLast? with
  | none => 10000
  | some latestBudget => latestBudget.budget

/-- Method `getCurrentWarehouseCapacity`: fallback `1000` on an empty table,
otherwise the capacity of the first entry of the warehouse's rows sorted by
descending date, falling back to `1000` when the warehouse has no rows. -/
def getCurrentWarehouseCapacity (warehouseConstraints : List CapacityRecord)
    (warehouseId : ℤ) : ℚ :=
  if warehouseConstraints = [] then 1000
  else
    match (sortDescBy (fun c => c.dateMs)
        (warehouseConstraints.filter (fun c => c.warehouse == warehouseId))).head? with
    | some latest => latest.capacity
    | none => 1000

/-- Method `calculateConfidence`. -/
def calculateConfidence (pred : CSVPrediction) : ℚ :=
  match pred.confidence_score with
  | some score => max 0.1 (min 0.95 score)
  | none =>
    let range := pred.hi - pred.lo
    let forecast := pred.yhat
    max 0.1 (min 0.95 (1 - range / max forecast 1))

/-- JavaScript `str.split('/')` on the character list: split at every `/`,
keeping empty segments (`"".split('/')` is `[""]`). -/
def splitSlash : List Char → List (List Char)
  | [] => [[]]
  | c :: cs =>
    if c = '/' then [] :: splitSlash cs
    else
      match splitSlash cs with
      | [] => [[c]]
      | seg :: segs => (c :: seg) :: segs

/-- `item.itemId.split('/').pop() || item.itemId`: the trailing `/`-separated
segment of a composite id, except that an empty trailing segment (a falsy
`pop()` result) falls back to the whole id. -/
def resolveProductId (itemId : String) : String :=
  match (splitSlash itemId.data).getLast? with
  | some seg => if seg.isEmpty then itemId else ⟨seg⟩
  | none => itemId

/-- Method `checkHumanInputRequired`: some item's total holding cost exceeds
its total shortage cost, judged on the cost entry of its bare product id;
items without a cost entry never trigger. -/
def checkHumanInputRequired (skuCostData : CostTable) (plan : SimplePlan) : Bool :=
  plan.items.any fun item =>
    let productId := resolveProductId item.itemId
    match skuCostData.lookup productId with
    | none => false
    | some skuCost =>
      decide (item.quantity * skuCost.holdingCost > item.quantity * skuCost.shortageCost)

/-- The grouping step of `runWorkflow` (step 1): group the parsed predictions
by `item_id` (first-occurrence key order), keep only the newest record of each
group (stable descending sort by date), and restrict to the requested item
ids. -/
def newestPredictions (allPredictions : List CSVPrediction)
    (itemIds : List String) : List CSVPrediction :=
  let ids := allPredictions.foldl
    (fun acc p => if acc.contains p.item_id then acc else acc ++ [p.item_id]) []
  (ids.filterMap fun id =>
      (sortDescBy (fun p => p.dateMs)
        (allPredictions.filter (fun p => p.item_id == id))).head?).filter
    (fun p => itemIds.contains p.item_id)

/-- Method `analyzeDemandRefined` (numeric content): one `DemandResult` per
prediction, with `targetQuantity` the raw forecast. `names` is the
`item_id ↦ product name` mapping built from the externally loaded business
data; the explanation string is the deterministic fallback text (decimal
formatting abstracted by `toString`). -/
def analyzeDemandRefined (names : List (String × String))
    (predictions : List CSVPrediction) : List DemandResult :=
  predictions.map fun pred =>
    let confidence := calculateConfidence pred
    let actualProductName := match names.lookup pred.item_id with
      | some n => n
      | none => pred.name
    { itemId := pred.item_id
      itemName := actualProductName
      targetQuantity := pred.yhat
      confidence := confidence
      reasoning := "Forecast of " ++ toString pred.yhat ++ " with " ++
        toString confidence ++ " confidence. Interval: [" ++ toString pred.lo ++
        ", " ++ toString pred.hi ++ "]." }

/-- The candidate `PlanItem` built by one iteration of the loop of
`generatePurchasePlanRefined`, before its budget test: resolve the cost entry,
look up the first demand result with the same item id (`demandResults.find`),
run the newsvendor optimizer on the `±20%` band around that result's target,
and price the item at `shortageCost + 10`. `none` when the product has no cost
entry (the source's `continue`) or when the optimizer's result is not a finite
number (a non-finite quantity can never pass the source's budget comparison
for a nonnegative unit price). -/
def mkCandidate (skuCostData : CostTable) (demandResults : List DemandResult)
    (demand : DemandResult) : Option PlanItem :=
  let productId := resolveProductId demand.itemId
  match skuCostData.lookup productId with
  | none => none
  | some skuCost =>
    match demandResults.find? (fun d => d.itemId == demand.itemId) with
    | none => none
    | some originalPred =>
      match calculateNewsvendorQuantity demand.targetQuantity
          (originalPred.targetQuantity * 0.8) (originalPred.targetQuantity * 1.2)
          skuCost.holdingCost skuCost.shortageCost with
      | .val newsvendorQuantity =>
        let purchasingPrice := skuCost.shortageCost + 10
        some { itemId := demand.itemId
               itemName := demand.itemName
               quantity := newsvendorQuantity
               unitCost := purchasingPrice
               totalCost := newsvendorQuantity * purchasingPrice }
      | _ => none

/-- The item loop of `generatePurchasePlanRefined`: accumulate admitted items
and the running `totalCost` / `totalUnits`, admitting a candidate only while
`totalCost + itemCost ≤ weeklyBudget`. -/
def genGo (skuCostData : CostTable) (weeklyBudget : ℚ)
    (demandResults : List DemandResult) :
    List DemandResult → List PlanItem → ℚ → ℚ → List PlanItem × ℚ × ℚ
  | [], items, totalCost, totalUnits => (items, totalCost, totalUnits)
  | demand :: rest, items, totalCost, totalUnits =>
    match mkCandidate skuCostData demandResults demand with
    | none => genGo skuCostData weeklyBudget demandResults rest items totalCost totalUnits
    | some pit =>
      if totalCost + pit.totalCost ≤ weeklyBudget then
        genGo skuCostData weeklyBudget demandResults rest (items ++ [pit])
          (totalCost + pit.totalCost) (totalUnits + pit.quantity)
      else
        genGo skuCostData weeklyBudget demandResults rest items totalCost totalUnits

/-- Method `generatePurchasePlanRefined` (numeric content). -/
def generatePurchasePlanRefined (skuCostData : CostTable)
    (budgetData : List BudgetRecord) (demandResults : List DemandResult) :
    SimplePlan :=
  let weeklyBudget := getCurrentBudget budgetData
  let acc := genGo skuCostData weeklyBudget demandResults demandResults [] 0 0
  { items := acc.1
    totalCost := acc.2.1
    totalUnits := acc.2.2
    reasoning := "Newsvendor policy applied with weekly budget constraint" }

/-- Modelled from the spec: the greedy budget ledger `applyBudget` of §4.4,
written from the spec's words ("iterate items in a fixed, caller-supplied
order; maintain a running total; admit an item only if
`runningTotal + itemCost ≤ availableBudget`; otherwise drop the item
entirely"), for comparison with the source's inline loop. -/
def budgetGo (availableBudget : ℚ) :
    List PlanItem → List PlanItem → ℚ → List PlanItem
  | [], acc, _ => acc
  | it :: rest, acc, runningTotal =>
    if runningTotal + it.totalCost ≤ availableBudget then
      budgetGo availableBudget rest (acc ++ [it]) (runningTotal + it.totalCost)
    else
      budgetGo availableBudget rest acc runningTotal

/-- Modelled from the spec: `applyBudget(items, availableBudget) → items'`
(§4.4 of the spec). -/
def applyBudget (availableBudget : ℚ) (items : List PlanItem) : List PlanItem :=
  budgetGo availableBudget items [] 0

/-- One iteration of the loop of `applyWarehouseConstraints`: clamp the
quantity to the capacity, recompute the total cost, and drop the item unless
the clamped quantity is positive. -/
def constrainItem (warehouseCapacity : ℚ) (item : PlanItem) : Option PlanItem :=
  let constrainedQuantity := min item.quantity warehouseCapacity
  if 0 < constrainedQuantity then
    some { item with
           quantity := constrainedQuantity
           totalCost := constrainedQuantity * item.unitCost }
  else
    none

/-- Method `applyWarehouseConstraints` (numeric content): capacity of the
hard-coded warehouse `11`, applied to every item; totals are the running sums
over the admitted items. -/
def applyWarehouseConstraints (warehouseConstraints : List CapacityRecord)
    (plan : SimplePlan) : SimplePlan :=
  let warehouseCapacity := getCurrentWarehouseCapacity warehouseConstraints 11
  let constrainedItems := plan.items.filterMap (constrainItem warehouseCapacity)
  { items := constrainedItems
    totalCost := (constrainedItems.map (fun it => it.totalCost)).sum
    totalUnits := (constrainedItems.map (fun it => it.quantity)).sum
    reasoning := "Warehouse capacity constraints applied" }

/-! The workflow runner (`runWorkflow`) and the feedback reconciler
(`modifyPlanBasedOnHumanInput`). -/

/-- The inputs of one workflow run: the requested item ids, the parsed
forecast rows, the externally loaded business-name mapping, and the three
cached tables of the service. -/
structure WorkflowInputs where
  itemIds : List String
  preds : List CSVPrediction
  names : List (String × String)
  skuCostData : CostTable
  budgetData : List BudgetRecord
  warehouseConstraints : List CapacityRecord
deriving Repr

/-- Exception injection for `runWorkflow`'s `try` block: an uncaught exception
(with its message) may be raised by the CSV load of step 1, or at the boundary
of each of the three agent stages; `none` means the stage completes. -/
structure StageFaults where
  loadFault : Option String
  analyzeFault : Option String
  planFault : Option String
  riskFault : Option String
deriving DecidableEq, Repr

/-- The earliest injected fault, in pipeline order; its message is the one the
`catch` handler sees. -/
def StageFaults.firstFault (f : StageFaults) : Option String :=
  match f.loadFault with
  | some e => some e
  | none =>
    match f.analyzeFault with
    | some e => some e
    | none =>
      match f.planFault with
      | some e => some e
      | none => f.riskFault

/-- The `catch` handler of `runWorkflow`: record the error message, force the
status to `complete`, and return the state with whatever partial results it
holds. -/
def errorReturn (state : WorkflowState) (e : String) : WorkflowState :=
  { state with messages := state.messages ++ ["Error: " ++ e], status := .complete }

/-- The plan produced by the fault-free automated stages of `runWorkflow`
(steps 1–3). -/
def finalPlan (inp : WorkflowInputs) : SimplePlan :=
  applyWarehouseConstraints inp.warehouseConstraints
    (generatePurchasePlanRefined inp.skuCostData inp.budgetData
      (analyzeDemandRefined inp.names (newestPredictions inp.preds inp.itemIds)))

/-- Method `runWorkflow`: the initial `running` state, the staged pipeline
inside a `try` block, the human-input gate, and the `catch` handler. Chat
messages are the deterministic (AI-less) ones, added here at the call sites of
the stages that push them. -/
def runWorkflow (faults : StageFaults) (inp : WorkflowInputs) : WorkflowState :=
  let state0 : WorkflowState :=
    { status := .running, demandResults := [], purchasePlan := none,
      messages := [], agentChat := [], awaitingHumanInput := false,
      humanInput := none, showResults := false }
  let s1 := { state0 with
    agentChat := state0.agentChat ++ ["Starting analysis..."] }
  match faults.loadFault with
  | some e => errorReturn s1 e
  | none =>
    let newest := newestPredictions inp.preds inp.itemIds
    match faults.analyzeFault with
    | some e => errorReturn s1 e
    | none =>
      let dr := analyzeDemandRefined inp.names newest
      let s2 := { s1 with
        demandResults := dr
        agentChat := s1.agentChat ++ ["Ready for purchasing optimization."] }
      match faults.planFault with
      | some e => errorReturn s2 e
      | none =>
        let plan1 := generatePurchasePlanRefined inp.skuCostData inp.budgetData dr
        let s3 := { s2 with
          purchasePlan := some plan1
          agentChat := s2.agentChat ++ ["Applied newsvendor policy."] }
        match faults.riskFault with
        | some e => errorReturn s3 e
        | none =>
          let plan2 := applyWarehouseConstraints inp.warehouseConstraints plan1
          let s4 := { s3 with
            purchasePlan := some plan2
            agentChat := s3.agentChat ++ ["Applied warehouse capacity constraints."] }
          if checkHumanInputRequired inp.skuCostData plan2 then
            { s4 with status := .waitingForInput, awaitingHumanInput := true,
                      showResults := false }
          else
            { s4 with status := .complete, showResults := true,
                      agentChat := s4.agentChat ++ ["Final supply planning output ready."] }

/-- One item update of a reduction rule of `modifyPlanBasedOnHumanInput`:
`newQuantity = max(1, floor(quantity × factor))`; the item (its total cost
included) is left untouched when the quantity would not change. -/
def reduceItem (factor : ℚ) (item : PlanItem) : PlanItem :=
  let newQuantity : ℚ := max 1 (⌊item.quantity * factor⌋ : ℤ)
  if newQuantity ≠ item.quantity then
    { item with quantity := newQuantity, totalCost := newQuantity * item.unitCost }
  else
    item

/-- Whether `reduceItem factor` changes the item (the source's
`newQuantity !== item.quantity` test that sets the `modified` flag). -/
def reduceChanges (factor : ℚ) (item : PlanItem) : Bool :=
  decide ((max 1 ((⌊item.quantity * factor⌋ : ℤ) : ℚ)) ≠ item.quantity)

/-- Recompute the plan aggregates as sums over the items (the

`Recalculate totals` steps of `modifyPlanBasedOnHumanInput`). -/
def recomputeTotals (plan : SimplePlan) : SimplePlan :=
  { plan with
    totalUnits := (plan.items.map (fun it => it.quantity)).sum
    totalCost := (plan.items.map (fun it => it.totalCost)).sum }

/-- Whether the feedback mentions the item (rule 3 of
`modifyPlanBasedOnHumanInput`): its lower-cased name or id occurs literally in
the lower-cased feedback. -/
def itemMentioned (feedback : String) (item : PlanItem) : Bool :=
  strContains feedback (strLower item.itemName) ||
    strContains feedback (strLower item.itemId)

/-- One rule block of `modifyPlanBasedOnHumanInput`: when `trigger` fires on
the current items, rewrite every item with `g`, fold the per-item change flag
into the shared `modified` flag, and recompute the plan aggregates when that
flag is set. -/
def ruleBlock (trigger : List PlanItem → Bool) (g : PlanItem → PlanItem)
    (changedOf : List PlanItem → Bool) (pm : SimplePlan × Bool) :
    SimplePlan × Bool :=
  if trigger pm.1.items then
    let changed := changedOf pm.1.items
    let plan := { pm.1 with items := pm.1.items.map g }
    let modified := pm.2 || changed
    (if modified then recomputeTotals plan else plan, modified)
  else pm

/-- The final block of `modifyPlanBasedOnHumanInput`: when no rule changed any
quantity, apply the small unconditional `0.95` adjustment. -/
def fallbackBlock (pm : SimplePlan × Bool) : SimplePlan × Bool :=
  if !pm.2 then
    let changed := pm.1.items.any (reduceChanges 0.95)
    let plan := { pm.1 with items := pm.1.items.map (reduceItem 0.95) }
    (if changed then recomputeTotals plan else plan, changed)
  else pm

/-- Method `modifyPlanBasedOnHumanInput` (plan content; chat messages and the
formatted rationale string abstracted to fixed texts). Four sequential rule
blocks over the same item list: budget concern (factor `0.7` with `"very"`,
else `0.85`), risk concern (`0.75` / `0.9`), items named in the feedback
(`0.7`), and the unconditional small fallback adjustment (`0.95`); each block
recomputes the plan aggregates when the shared `modified` flag is set, and the
rationale text is replaced when anything changed. -/
def modifyPlanBasedOnHumanInput (plan : SimplePlan) (feedbackRaw : String) :
    SimplePlan :=
  let feedback := strLower feedbackRaw
  let budgetFactor : ℚ := if strContains feedback "very" then 0.7 else 0.85
  let riskFactor : ℚ := if strContains feedback "very" then 0.75 else 0.9
  let step1 := ruleBlock
    (fun _ => strContains feedback "budget" || strContains feedback "cost" ||
      strContains feedback "expensive")
    (reduceItem budgetFactor)
    (fun items => items.any (reduceChanges budgetFactor))
    (plan, false)
  let step2 := ruleBlock
    (fun _ => strContains feedback "risk" || strContains feedback "conservative" ||
      strContains feedback "safe")
    (reduceItem riskFactor)
    (fun items => items.any (reduceChanges riskFactor))
    step1
  let step3 := ruleBlock
    (fun items => items.any (itemMentioned feedback))
    (fun it => if itemMentioned feedback it then reduceItem 0.7 it else it)
    (fun items => items.any (fun it => itemMentioned feedback it && reduceChanges 0.7 it))
    step2
  let step4 := fallbackBlock step3
  if step4.2 then
    { step4.1 with reasoning := "Plan modified based on human feedback." }
  else
    step4.1

/-- Formalisation of the phrase "the value of the chronologically latest
entry" of the budget history, as the claims read it (for comparison with the
source's `getCurrentBudget`, which takes the last entry in array order). -/
def chronLatestBudget (budgetData : List BudgetRecord) : ℚ :=
  match (sortDescBy (fun r => r.dateMs) budgetData).head? with
  | some r => r.budget
  | none => 10000

/-- Formalisation of the capacity filter exactly as the claim words it: set
every quantity to `min(quantity, capacity)`, recompute the total cost, and
remove precisely the items whose clamped quantity **is 0** (for comparison
with the source's `> 0` admission test). -/
def claimApplyCapacity (warehouseCapacity : ℚ) (items : List PlanItem) :
    List PlanItem :=
  (items.map fun item =>
    let q := min item.quantity warehouseCapacity
    { item with quantity := q, totalCost := q * item.unitCost }).filter
    (fun item => item.quantity ≠ 0)

/-! Invariants of the data model (§3 of the spec). -/

/-- The per-item invariant `totalCost = quantity × unitCost`. -/
def itemInvariant (item : PlanItem) : Prop :=
  item.totalCost = item.quantity * item.unitCost

/-- The plan invariant: every item satisfies `itemInvariant` and the
aggregates are the sums over the items. -/
def planInvariant (plan : SimplePlan) : Prop :=
  (∀ item ∈ plan.items, itemInvariant item) ∧
  plan.totalCost = (plan.items.map (fun it => it.totalCost)).sum ∧
  plan.totalUnits = (plan.items.map (fun it => it.quantity)).sum

/-! Helper lemmas about the stable descending sort. -/

theorem mem_insertDescBy {α : Type} (key : α → ℤ) (x z : α) :
    ∀ l : List α, z ∈ insertDescBy key x l ↔ z = x ∨ z ∈ l := by
  intro l
  induction l with
  | nil => simp [insertDescBy]
  | cons y ys ih =>
    by_cases h : key y ≤ key x
    · simp [insertDescBy, h]
    · simp only [insertDescBy, if_neg h, List.mem_cons, ih]
      tauto

theorem mem_sortDescBy {α : Type} (key : α → ℤ) (z : α) :
    ∀ l : List α, z ∈ sortDescBy key l ↔ z ∈ l := by
  intro l
  induction l with
  | nil => simp [sortDescBy]
  | cons y ys ih =>
    simp only [sortDescBy, List.foldr_cons, List.mem_cons]
    rw [mem_insertDescBy]
    simp only [sortDescBy] at ih
    rw [ih]

theorem sortDescBy_head_max {α : Type} (key : α → ℤ) :
    ∀ (l : List α) (y : α) (ys : List α), sortDescBy key l = y :: ys →
      y ∈ l ∧ ∀ z ∈ l, key z ≤ key y := by
  intro l
  induction l with
  | nil => intro y ys h; simp [sortDescBy] at h
  | cons x t ih =>
    intro y ys h
    have hfold : sortDescBy key (x :: t) = insertDescBy key x (sortDescBy key t) := rfl
    match hs : sortDescBy key t with
    | [] =>
      have ht : ∀ z, z ∈ t → False := by
        intro z hz
        have := (mem_sortDescBy key z t).mpr hz
        rw [hs] at this
        simp at this
      rw [hfold, hs] at h
      simp [insertDescBy] at h
      refine ⟨by simp [h.1], ?_⟩
      intro z hz
      rcases List.mem_cons.mp hz with h1 | h1
      · subst h1; rw [h.1]
      · exact absurd h1 (fun hh => ht z hh)
    | hd :: hs' =>
      obtain ⟨hhdmem, hhdmax⟩ := ih hd hs' hs
      rw [hfold, hs] at h
      by_cases hk : key hd ≤ key x
      · rw [insertDescBy, if_pos hk] at h
        have hy : y = x := by
          injection h with e1 e2
          exact e1.symm
        subst hy
        refine ⟨List.mem_cons_self _ _, ?_⟩
        intro z hz
        rcases List.mem_cons.mp hz with h1 | h1
        · rw [h1]
        · exact le_trans (hhdmax z h1) hk
      · rw [insertDescBy, if_neg hk] at h
        have hy : y = hd := by
          injection h with e1 e2
          exact e1.symm
        subst hy
        refine ⟨List.mem_cons_of_mem _ hhdmem, ?_⟩
        intro z hz
        rcases List.mem_cons.mp hz with h1 | h1
        · subst h1
          exact le_of_not_le hk
        · exact hhdmax z h1

theorem head?_mem {α : Type} {l : List α} {p : α} (h : l.head? = some p) : p ∈ l := by
  cases l with
  | nil => simp at h
  | cons a t =>
    simp only [List.head?_cons, Option.some.injEq] at h
    simp [h]

end AgentFlow

open AgentFlow

/-! Demonstration data used by concrete parts of the claim theorems. -/

/-- Budget history whose last entry is not the chronologically latest one. -/
def budgetDemo : List BudgetRecord := [⟨2, 5⟩, ⟨1, 7⟩]

/-- Capacity history for warehouses 11 and 12. -/
def capsDemo : List CapacityRecord := [⟨5, 42, 11⟩, ⟨9, 77, 11⟩, ⟨7, 3, 12⟩]

/-- Capacity history putting warehouse 11 at a negative capacity. -/
def capsNeg : List CapacityRecord := [⟨0, -1, 11⟩]

/-- Capacity history putting warehouse 11 at capacity 100. -/
def caps100 : List CapacityRecord := [⟨0, 100, 11⟩]

/-- A one-item plan with quantity 100. -/
def planQ100 : SimplePlan := ⟨[⟨"w1", "Widget", 100, 3, 300⟩], 300, 100, "r"⟩

/-- A one-item plan with quantity 150. -/
def planQ150 : SimplePlan := ⟨[⟨"w1", "Widget", 150, 3, 450⟩], 450, 150, "r"⟩

/-- C6: for every forecast record the derived confidence lies in
`[0.1, 0.95]`; an explicit confidence score is clamped to that interval, and
otherwise the confidence is `clamp(1 − (hi − lo)/max(yhat, 1), 0.1, 0.95)`,
including for records with zero or negative forecast values. -/
theorem confidence_always_in_range :
    (∀ pred : CSVPrediction,
      (0.1:ℚ) ≤ calculateConfidence pred ∧ calculateConfidence pred ≤ 0.95) ∧
    (∀ pred : CSVPrediction, ∀ c, pred.confidence_score = some c →
      calculateConfidence pred = max 0.1 (min 0.95 c)) ∧
    (∀ pred : CSVPrediction, pred.confidence_score = none →
      calculateConfidence pred =
        max 0.1 (min 0.95 (1 - (pred.hi - pred.lo) / max pred.yhat 1))) := by
  refine ⟨?_, ?_, ?_⟩
  · intro pred
    cases h : pred.confidence_score with
    | some c =>
      simp only [calculateConfidence, h]
      exact ⟨le_max_left _ _, max_le (by norm_num) (min_le_left _ _)⟩
    | none =>
      simp only [calculateConfidence, h]
      exact ⟨le_max_left _ _, max_le (by norm_num) (min_le_left _ _)⟩
  · intro pred c h
    simp only [calculateConfidence, h]
  · intro pred h
    simp only [calculateConfidence, h]

/-- Witness for `confidence_always_in_range` at concrete records: an explicit
score of 2 is clamped to 0.95, and a record without a score, with forecast 0
and interval `[0, 5]`, is clamped up to 0.1. -/
theorem confidence_always_in_range_witness :
    calculateConfidence ⟨"a", "A", 10, 9, 11, some 2, 0⟩ = max 0.1 (min 0.95 2) ∧
    calculateConfidence ⟨"a", "A", 0, 0, 5, none, 0⟩ =
      max 0.1 (min 0.95 (1 - ((5:ℚ) - 0) / max 0 1)) ∧
    (0.1:ℚ) ≤ calculateConfidence ⟨"a", "A", 0, 0, 5, none, 0⟩ := by
  refine ⟨confidence_always_in_range.2.1 _ 2 rfl, ?_, (confidence_always_in_range.1 _).1⟩
  have h := confidence_always_in_range.2.2 ⟨"a", "A", 0, 0, 5, none, 0⟩ rfl
  simpa using h

/-- C1 (code evaluation at the claim's input): with mean 2, interval
`[1.6, 2.4]`, holding cost 1 and shortage cost 5, the price is 15, the
critical ratio is `14/15` and the standard deviation `10/49 ≈ 0.2041` as the
claim states; but the source's quantile approximation evaluates to `≈ 0.6824`
at `14/15` — more than `0.8` away from the claim's `≈ 1.50` — so the optimal
quantity before rounding is `≈ 2.1393`, not `≈ 2.31`; its ceiling is still 3. -/
theorem newsvendor_example_evaluated :
    ((5:ℚ) + 10 = 15) ∧
    (jsDivV (15 - 1) (15 - 0) = .val (14/15)) ∧
    (((12/5 : ℚ) - 8/5) / (2 * 1.96) = 10/49) ∧
    (|inverseNormalCDFBody (14/15) - 0.6824| < 0.001) ∧
    ((4/5 : ℚ) < |inverseNormalCDFBody (14/15) - 1.50|) ∧
    (|(2 + (10/49) * inverseNormalCDFBody (14/15)) - 2.1393| < 0.001) ∧
    (calculateNewsvendorQuantity 2 (8/5) (12/5) 1 5 = .val 3) := by
  refine ⟨by norm_num, by norm_num [jsDivV], by norm_num, ?_, ?_, ?_, ?_⟩
  · norm_num [inverseNormalCDFBody, abs_lt]
  · norm_num [inverseNormalCDFBody, lt_abs]
  · norm_num [inverseNormalCDFBody, abs_lt]
  · norm_num [calculateNewsvendorQuantity, jsDivV, inverseNormalCDF,
      inverseNormalCDFBody, jsMul, jsAdd, jsMax0, jsCeil]
    rw [show (3:ℚ) = ((3:ℤ):ℚ) by norm_num, Int.cast_inj, Int.ceil_eq_iff]
    norm_num

/-- C9 (counterexample): on a budget history whose entries are not in
chronological order, `getCurrentBudget` returns the last entry's value (7),
not the value of the chronologically latest entry (5). -/
theorem current_budget_not_chronological :
    getCurrentBudget budgetDemo = 7 ∧
    chronLatestBudget budgetDemo = 5 ∧
    getCurrentBudget budgetDemo ≠ chronLatestBudget budgetDemo := by
  refine ⟨rfl, ?_, ?_⟩
  · simp [chronLatestBudget, budgetDemo, sortDescBy, insertDescBy]
  · simp [chronLatestBudget, getCurrentBudget, budgetDemo, sortDescBy, insertDescBy]

/-- C9 (amended): the budget used by a run is the value of the **last entry in
load order** of the budget history (the chronologically latest only when the
history is date-sorted ascending), with fallback 10000 on an empty history;
the capacity used is the value of a chronologically latest entry for the
queried warehouse, with fallback 1000 when the history is empty or has no
entry for that warehouse. -/
theorem current_budget_capacity_amended :
    (getCurrentBudget [] = 10000) ∧
    (∀ (l : List BudgetRecord) (r : BudgetRecord), l.getLast? = some r →
      getCurrentBudget l = r.budget) ∧
    (∀ (caps : List CapacityRecord) (wid : ℤ),
      caps.filter (fun c => c.warehouse == wid) = [] →
      getCurrentWarehouseCapacity caps wid = 1000) ∧
    (∀ (caps : List CapacityRecord) (wid : ℤ),
      caps.filter (fun c => c.warehouse == wid) ≠ [] →
      ∃ r ∈ caps, r.warehouse = wid ∧
        (∀ s ∈ caps, s.warehouse = wid → s.dateMs ≤ r.dateMs) ∧
        getCurrentWarehouseCapacity caps wid = r.capacity) := by
  refine ⟨rfl, ?_, ?_, ?_⟩
  · intro l r h
    simp only [getCurrentBudget, h]
  · intro caps wid h
    by_cases hc : caps = []
    · simp [getCurrentWarehouseCapacity, hc]
    · simp [getCurrentWarehouseCapacity, hc, h, sortDescBy]
  · intro caps wid h
    have hc : caps ≠ [] := by
      intro hc
      subst hc
      simp at h
    obtain ⟨z, hz⟩ := List.exists_mem_of_ne_nil _ h
    have hzs : z ∈ sortDescBy (fun c => c.dateMs) (caps.filter (fun c => c.warehouse == wid)) :=
      (mem_sortDescBy _ z _).mpr hz
    match hsort : sortDescBy (fun c => c.dateMs) (caps.filter (fun c => c.warehouse == wid)) with
    | [] => rw [hsort] at hzs; simp at hzs
    | hd :: tl =>
      obtain ⟨hmem, hmax⟩ := sortDescBy_head_max _ _ hd tl hsort
      have hdw : hd.warehouse = wid := by
        have := List.mem_filter.mp hmem
        simpa using this.2
      refine ⟨hd, (List.mem_filter.mp hmem).1, hdw, ?_, ?_⟩
      · intro s hs hsw
        exact hmax s (List.mem_filter.mpr ⟨hs, by simpa using hsw⟩)
      · simp [getCurrentWarehouseCapacity, hc, hsort]

/-- Witness for `current_budget_capacity_amended` at concrete histories: the
budget history `budgetDemo` yields the last entry's value 7, and the capacity
history `capsDemo` yields the capacity of a latest warehouse-11 entry. -/
theorem current_budget_capacity_amended_witness :
    getCurrentBudget budgetDemo = 7 ∧
    (∃ r ∈ capsDemo, r.warehouse = 11 ∧
      (∀ s ∈ capsDemo, s.warehouse = 11 → s.dateMs ≤ r.dateMs) ∧
      getCurrentWarehouseCapacity capsDemo 11 = r.capacity) := by
  constructor
  · have h := current_budget_capacity_amended.2.1 budgetDemo ⟨1, 7⟩ rfl
    simpa using h
  · exact current_budget_capacity_amended.2.2.2 capsDemo 11 (by decide)

/-- C5 (counterexample): with a capacity history putting warehouse 11 at
capacity `-1`, the source drops an item of quantity 100 (its clamped quantity
`-1` fails the `> 0` admission test), while the claim's reading — remove only
items whose clamped quantity **is 0** — keeps it with quantity `-1`. -/
theorem capacity_filter_clamp_counterexample :
    getCurrentWarehouseCapacity capsNeg 11 = -1 ∧
    (applyWarehouseConstraints capsNeg planQ100).items = [] ∧
    claimApplyCapacity (-1) planQ100.items = [⟨"w1", "Widget", -1, 3, -3⟩] ∧
    claimApplyCapacity (getCurrentWarehouseCapacity capsNeg 11) planQ100.items ≠
      (applyWarehouseConstraints capsNeg planQ100).items := by
  have hcap : getCurrentWarehouseCapacity capsNeg 11 = -1 := by
    simp [getCurrentWarehouseCapacity, capsNeg, sortDescBy, insertDescBy]
  have h1 : (applyWarehouseConstraints capsNeg planQ100).items = [] := by
    norm_num [applyWarehouseConstraints, hcap, planQ100, constrainItem, min_def]
  have h2 : claimApplyCapacity (-1) planQ100.items = [⟨"w1", "Widget", -1, 3, -3⟩] := by
    norm_num [claimApplyCapacity, planQ100, min_def]
  refine ⟨hcap, h1, h2, ?_⟩
  rw [hcap, h1, h2]
  simp

/-- C5 (amended): for every input plan and capacity history, the capacity
filter maps each kept item's quantity to `min(quantity, capacity)` for the
capacity of warehouse 11, recomputes its `totalCost` as the clamped quantity
times the unit cost (never leaving the old `totalCost` stale), keeps exactly
the items whose clamped quantity is **positive**, and removes the rest (those
whose clamped quantity is zero **or negative**). -/
theorem capacity_filter_amended :
    ∀ (caps : List CapacityRecord) (plan : SimplePlan),
      (∀ out ∈ (applyWarehouseConstraints caps plan).items,
        ∃ item ∈ plan.items,
          out.itemId = item.itemId ∧ out.itemName = item.itemName ∧
          out.unitCost = item.unitCost ∧
          out.quantity = min item.quantity (getCurrentWarehouseCapacity caps 11) ∧
          out.totalCost = out.quantity * item.unitCost ∧
          0 < out.quantity) ∧
      (∀ item ∈ plan.items,
        0 < min item.quantity (getCurrentWarehouseCapacity caps 11) →
        { item with
            quantity := min item.quantity (getCurrentWarehouseCapacity caps 11)
            totalCost := min item.quantity (getCurrentWarehouseCapacity caps 11) *
              item.unitCost } ∈ (applyWarehouseConstraints caps plan).items) := by
  intro caps plan
  constructor
  · intro out hout
    simp only [applyWarehouseConstraints, List.mem_filterMap] at hout
    obtain ⟨item, hmem, heq⟩ := hout
    simp only [constrainItem] at heq
    split_ifs at heq with hpos
    · injection heq with heq2
      subst heq2
      exact ⟨item, hmem, rfl, rfl, rfl, rfl, rfl, hpos⟩
  · intro item hmem hpos
    simp only [applyWarehouseConstraints, List.mem_filterMap]
    refine ⟨item, hmem, ?_⟩
    simp only [constrainItem, if_pos hpos]

/-- Witness for `capacity_filter_amended`: an item of quantity 150 against
capacity 100 is kept with quantity 100 and its total cost recomputed to
`100 × 3 = 300`. -/
theorem capacity_filter_amended_witness :
    (⟨"w1", "Widget", 100, 3, 300⟩ : PlanItem) ∈
      (applyWarehouseConstraints caps100 planQ150).items := by
  have hcap : getCurrentWarehouseCapacity caps100 11 = 100 := by
    simp [getCurrentWarehouseCapacity, caps100, sortDescBy, insertDescBy]
  have h := (capacity_filter_amended caps100 planQ150).2
    ⟨"w1", "Widget", 150, 3, 450⟩ (by simp [planQ150])
    (by rw [hcap]; norm_num)
  rw [hcap] at h
  norm_num [min_def] at h
  convert h using 2

/-! C4: the budget ledger of `generatePurchasePlanRefined`. -/

theorem genGo_eq_budgetGo (skuCostData : CostTable) (weeklyBudget : ℚ)
    (full : List DemandResult) :
    ∀ (rem : List DemandResult) (acc : List PlanItem) (tc tu : ℚ),
      (genGo skuCostData weeklyBudget full rem acc tc tu).1 =
        budgetGo weeklyBudget (rem.filterMap (mkCandidate skuCostData full)) acc tc := by
  intro rem
  induction rem with
  | nil => intro acc tc tu; rfl
  | cons d rest ih =>
    intro acc tc tu
    cases h : mkCandidate skuCostData full d with
    | none =>
      simp only [genGo, h, List.filterMap_cons]
      exact ih acc tc tu
    | some pit =>
      simp only [genGo, h, List.filterMap_cons, budgetGo]
      by_cases hb : tc + pit.totalCost ≤ weeklyBudget
      · rw [if_pos hb, if_pos hb]
        exact ih _ _ _
      · rw [if_neg hb, if_neg hb]
        exact ih _ _ _

theorem budgetGo_mem (availableBudget : ℚ) :
    ∀ (l acc : List PlanItem) (run : ℚ), ∀ out ∈ budgetGo availableBudget l acc run,
      out ∈ acc ∨ out ∈ l := by
  intro l
  induction l with
  | nil =>
    intro acc run out h
    simp only [budgetGo] at h
    exact Or.inl h
  | cons it rest ih =>
    intro acc run out h
    simp only [budgetGo] at h
    split_ifs at h with hb
    · rcases ih (acc ++ [it]) _ out h with h1 | h1
      · rcases List.mem_append.mp h1 with h2 | h2
        · exact Or.inl h2
        · simp only [List.mem_singleton] at h2
          subst h2
          exact Or.inr (List.mem_cons_self _ _)
      · exact Or.inr (List.mem_cons_of_mem _ h1)
    · rcases ih acc _ out h with h1 | h1
      · exact Or.inl h1
      · exact Or.inr (List.mem_cons_of_mem _ h1)

/-- Demand results whose newsvendor items cost 300, 300 and 500: with holding
cost = shortage cost = 10 the critical ratio is `1/2`, where the quantile
approximation is exactly 0, so the ordered quantity is exactly the target. -/
def drA : DemandResult := ⟨"x1", "A", 15, 1, ""⟩

/-- Second demand result of the C4 example (cost 300). -/
def drB : DemandResult := ⟨"x2", "B", 15, 1, ""⟩

/-- Third demand result of the C4 example (cost 500). -/
def drC : DemandResult := ⟨"x3", "C", 25, 1, ""⟩

/-- Cost table of the C4 example: price `10 + 10 = 20` per unit everywhere. -/
def costsABC : CostTable := [("x1", ⟨10, 10⟩), ("x2", ⟨10, 10⟩), ("x3", ⟨10, 10⟩)]

/-- Budget history of the C4 example: available budget 650. -/
def budget650 : List BudgetRecord := [⟨0, 650⟩]

theorem newsvendor_target15 : calculateNewsvendorQuantity 15 12 18 10 10 = .val 15 := by
  norm_num [calculateNewsvendorQuantity, jsDivV, inverseNormalCDF,
    inverseNormalCDFBody, jsMul, jsAdd, jsMax0, jsCeil]

theorem newsvendor_target25 : calculateNewsvendorQuantity 25 20 30 10 10 = .val 25 := by
  norm_num [calculateNewsvendorQuantity, jsDivV, inverseNormalCDF,
    inverseNormalCDFBody, jsMul, jsAdd, jsMax0, jsCeil]

theorem mkCandidate_drA :
    mkCandidate costsABC [drA, drB, drC] drA = some ⟨"x1", "A", 15, 20, 300⟩ := by
  have hr : resolveProductId "x1" = "x1" := by decide
  have hl : costsABC.lookup "x1" = some ⟨10, 10⟩ := by decide
  have hf : [drA, drB, drC].find? (fun d => d.itemId == "x1") = some drA := by decide
  norm_num [mkCandidate, drA, hr, hl, hf, newsvendor_target15]

theorem mkCandidate_drB :
    mkCandidate costsABC [drA, drB, drC] drB = some ⟨"x2", "B", 15, 20, 300⟩ := by
  have hr : resolveProductId "x2" = "x2" := by decide
  have hl : costsABC.lookup "x2" = some ⟨10, 10⟩ := by decide
  have hf : List.find? (fun d => d.itemId == "x2")
      [drA, ⟨"x2", "B", 15, 1, ""⟩, drC] = some ⟨"x2", "B", 15, 1, ""⟩ := by decide
  norm_num [mkCandidate, drB, hr, hl, hf, newsvendor_target15]

theorem mkCandidate_drC :
    mkCandidate costsABC [drA, drB, drC] drC = some ⟨"x3", "C", 25, 20, 500⟩ := by
  have hr : resolveProductId "x3" = "x3" := by decide
  have hl : costsABC.lookup "x3" = some ⟨10, 10⟩ := by decide
  have hf : List.find? (fun d => d.itemId == "x3")
      [drA, drB, ⟨"x3", "C", 25, 1, ""⟩] = some ⟨"x3", "C", 25, 1, ""⟩ := by decide
  norm_num [mkCandidate, drC, hr, hl, hf, newsvendor_target25]

/-- C4: the budget filter of the refined plan generator iterates the demand
results in the caller-supplied order with a running total, admits an item's
candidate exactly when `runningTotal + itemCost ≤ availableBudget`
(the greedy `applyBudget` ledger of the spec), and drops a rejected item
entirely — without reducing its quantity and without adding its cost to the
running total; concretely, candidates costing 300, 300, 500 against budget 650
yield the first two admitted (total 600) and the third rejected. -/
theorem budget_filter_greedy :
    (∀ (skuCostData : CostTable) (budgetData : List BudgetRecord)
        (demandResults : List DemandResult),
      (generatePurchasePlanRefined skuCostData budgetData demandResults).items =
        applyBudget (getCurrentBudget budgetData)
          (demandResults.filterMap (mkCandidate skuCostData demandResults))) ∧
    (∀ (availableBudget : ℚ) (items : List PlanItem),
      ∀ out ∈ applyBudget availableBudget items, out ∈ items) ∧
    (([drA, drB, drC].filterMap (mkCandidate costsABC [drA, drB, drC])).map
        (fun it => it.totalCost) = [300, 300, 500] ∧
      (generatePurchasePlanRefined costsABC budget650 [drA, drB, drC]).items.map
        (fun it => it.totalCost) = [300, 300] ∧
      (generatePurchasePlanRefined costsABC budget650 [drA, drB, drC]).totalCost = 600) := by
  refine ⟨?_, ?_, ?_, ?_, ?_⟩
  · intro skuCostData budgetData demandResults
    exact genGo_eq_budgetGo skuCostData (getCurrentBudget budgetData)
      demandResults demandResults [] 0 0
  · intro availableBudget items out hout
    rcases budgetGo_mem availableBudget items [] 0 out hout with h | h
    · simp at h
    · exact h
  · simp [List.filterMap_cons, mkCandidate_drA, mkCandidate_drB, mkCandidate_drC]
  · norm_num [generatePurchasePlanRefined, genGo, mkCandidate_drA, mkCandidate_drB,
      mkCandidate_drC, getCurrentBudget, budget650]
  · norm_num [generatePurchasePlanRefined, genGo, mkCandidate_drA, mkCandidate_drB,
      mkCandidate_drC, getCurrentBudget, budget650]

/-- Witness for `budget_filter_greedy`: an admitted item is returned exactly
as supplied (no partial quantity reduction), here for a single item of cost
300 against budget 650. -/
theorem budget_filter_greedy_witness :
    (⟨"y", "Y", 1, 300, 300⟩ : PlanItem) ∈ [(⟨"y", "Y", 1, 300, 300⟩ : PlanItem)] := by
  refine budget_filter_greedy.2.1 650 [⟨"y", "Y", 1, 300, 300⟩] _ ?_
  norm_num [applyBudget, budgetGo]

/-! C3: the plan invariants. -/

theorem mkCandidate_itemInvariant (skuCostData : CostTable)
    (full : List DemandResult) (d : DemandResult) (pit : PlanItem)
    (h : mkCandidate skuCostData full d = some pit) : itemInvariant pit := by
  simp only [mkCandidate] at h
  cases hl : List.lookup (resolveProductId d.itemId) skuCostData with
  | none => rw [hl] at h; exact absurd h (by simp)
  | some sku =>
    rw [hl] at h
    dsimp only at h
    cases hf : List.find? (fun x => x.itemId == d.itemId) full with
    | none => rw [hf] at h; exact absurd h (by simp)
    | some op =>
      rw [hf] at h
      dsimp only at h
      cases hc : calculateNewsvendorQuantity d.targetQuantity
          (op.targetQuantity * 0.8) (op.targetQuantity * 1.2)
          sku.holdingCost sku.shortageCost with
      | val q =>
        rw [hc] at h
        injection h with h2
        subst h2
        rfl
      | nan => rw [hc] at h; exact absurd h (by simp)
      | negInf => rw [hc] at h; exact absurd h (by simp)
      | posInf => rw [hc] at h; exact absurd h (by simp)

theorem genGo_invariant (skuCostData : CostTable) (weeklyBudget : ℚ)
    (full : List DemandResult) :
    ∀ (rem : List DemandResult) (acc : List PlanItem) (tc tu : ℚ),
      (∀ it ∈ acc, itemInvariant it) →
      tc = (acc.map (fun it => it.totalCost)).sum →
      tu = (acc.map (fun it => it.quantity)).sum →
      (∀ it ∈ (genGo skuCostData weeklyBudget full rem acc tc tu).1, itemInvariant it) ∧
      (genGo skuCostData weeklyBudget full rem acc tc tu).2.1 =
        (((genGo skuCostData weeklyBudget full rem acc tc tu).1).map
          (fun it => it.totalCost)).sum ∧
      (genGo skuCostData weeklyBudget full rem acc tc tu).2.2 =
        (((genGo skuCostData weeklyBudget full rem acc tc tu).1).map
          (fun it => it.quantity)).sum := by
  intro rem
  induction rem with
  | nil =>
    intro acc tc tu hinv htc htu
    exact ⟨hinv, htc, htu⟩
  | cons d rest ih =>
    intro acc tc tu hinv htc htu
    cases h : mkCandidate skuCostData full d with
    | none =>
      simp only [genGo, h]
      exact ih acc tc tu hinv htc htu
    | some pit =>
      simp only [genGo, h]
      by_cases hb : tc + pit.totalCost ≤ weeklyBudget
      · rw [if_pos hb]
        refine ih (acc ++ [pit]) _ _ ?_ ?_ ?_
        · intro it hit
          rcases List.mem_append.mp hit with h1 | h1
          · exact hinv it h1
          · simp only [List.mem_singleton] at h1
            subst h1
            exact mkCandidate_itemInvariant skuCostData full d it h
        · rw [htc, List.map_append, List.sum_append]
          simp
        · rw [htu, List.map_append, List.sum_append]
          simp
      · rw [if_neg hb]
        exact ih acc tc tu hinv htc htu

theorem reduceItem_itemInvariant (factor : ℚ) (it : PlanItem)
    (h : itemInvariant it) : itemInvariant (reduceItem factor it) := by
  simp only [reduceItem]
  split_ifs with hq
  · rfl
  · exact h

theorem reduceItem_eq_of_not_changed (factor : ℚ) (it : PlanItem)
    (h : reduceChanges factor it = false) : reduceItem factor it = it := by
  have h2 := of_decide_eq_false h
  simp only [reduceItem]
  rw [if_neg h2]

theorem map_reduce_id (factor : ℚ) :
    ∀ items : List PlanItem, items.any (reduceChanges factor) = false →
      items.map (reduceItem factor) = items := by
  intro items
  induction items with
  | nil => intro h; rfl
  | cons a rest ih =>
    intro h
    simp only [List.any_cons, Bool.or_eq_false_iff] at h
    simp only [List.map_cons, reduceItem_eq_of_not_changed factor a h.1, ih h.2]

theorem mentioned_reduce_invariant (fb : String) (it : PlanItem)
    (hi : itemInvariant it) :
    itemInvariant (if itemMentioned fb it then reduceItem 0.7 it else it) := by
  split_ifs
  · exact reduceItem_itemInvariant 0.7 it hi
  · exact hi

theorem map_mentioned_reduce_id (fb : String) :
    ∀ items : List PlanItem,
      items.any (fun it => itemMentioned fb it && reduceChanges 0.7 it) = false →
      items.map (fun it => if itemMentioned fb it then reduceItem 0.7 it else it) =
        items := by
  intro items
  induction items with
  | nil => intro h; rfl
  | cons a rest ih =>
    intro h
    simp only [List.any_cons, Bool.or_eq_false_iff, Bool.and_eq_false_iff] at h
    simp only [List.map_cons, ih h.2]
    rcases h.1 with h5 | h5
    · rw [if_neg (by simp [h5])]
    · rw [reduceItem_eq_of_not_changed 0.7 a h5]
      split_ifs
      · rfl
      · rfl

theorem ruleBlock_invariant (trigger : List PlanItem → Bool)
    (g : PlanItem → PlanItem) (changedOf : List PlanItem → Bool)
    (pm : SimplePlan × Bool)
    (hg : ∀ it, itemInvariant it → itemInvariant (g it))
    (hid : ∀ items, changedOf items = false → items.map g = items)
    (h : planInvariant pm.1) :
    planInvariant (ruleBlock trigger g changedOf pm).1 := by
  simp only [ruleBlock]
  split_ifs with ht hm
  · refine ⟨?_, rfl, rfl⟩
    intro it hit
    simp only [recomputeTotals] at hit
    simp only [List.mem_map] at hit
    obtain ⟨a, ha, rfl⟩ := hit
    exact hg a (h.1 a ha)
  · have hm2 : (pm.2 || changedOf pm.1.items) = false := by
      simpa using hm
    have hc : changedOf pm.1.items = false := (Bool.or_eq_false_iff.mp hm2).2
    show planInvariant { pm.1 with items := pm.1.items.map g }
    rw [hid pm.1.items hc]
    exact h
  · exact h

theorem fallbackBlock_invariant (pm : SimplePlan × Bool)
    (h : planInvariant pm.1) : planInvariant (fallbackBlock pm).1 := by
  simp only [fallbackBlock]
  split_ifs with ht hm
  · refine ⟨?_, rfl, rfl⟩
    intro it hit
    simp only [recomputeTotals] at hit
    simp only [List.mem_map] at hit
    obtain ⟨a, ha, rfl⟩ := hit
    exact reduceItem_itemInvariant 0.95 a (h.1 a ha)
  · have hm2 : pm.1.items.any (reduceChanges 0.95) = false := by
      simpa using hm
    show planInvariant { pm.1 with items := pm.1.items.map (reduceItem 0.95) }
    rw [map_reduce_id 0.95 pm.1.items hm2]
    exact h
  · exact h

theorem final_reasoning_invariant (pm : SimplePlan × Bool)
    (h : planInvariant pm.1) :
    planInvariant (if pm.2 then
      { pm.1 with reasoning := "Plan modified based on human feedback." }
      else pm.1) := by
  split_ifs
  · exact ⟨h.1, h.2.1, h.2.2⟩
  · exact h

/-- C3: every operation producing or mutating a plan maintains the plan
invariants — the refined plan generator and the capacity filter establish
`totalCost = quantity × unitCost` for every item together with
`totalCost`/`totalUnits` as sums over the items, and feedback reconciliation
preserves them. -/
theorem plan_invariants_maintained :
    (∀ (skuCostData : CostTable) (budgetData : List BudgetRecord)
        (demandResults : List DemandResult),
      planInvariant (generatePurchasePlanRefined skuCostData budgetData demandResults)) ∧
    (∀ (caps : List CapacityRecord) (plan : SimplePlan),
      planInvariant (applyWarehouseConstraints caps plan)) ∧
    (∀ (plan : SimplePlan) (feedback : String), planInvariant plan →
      planInvariant (modifyPlanBasedOnHumanInput plan feedback)) := by
  refine ⟨?_, ?_, ?_⟩
  · intro skuCostData budgetData demandResults
    have h := genGo_invariant skuCostData (getCurrentBudget budgetData)
      demandResults demandResults [] 0 0
      (by intro it hit; simp at hit) (by simp) (by simp)
    exact ⟨h.1, h.2.1, h.2.2⟩
  · intro caps plan
    refine ⟨?_, rfl, rfl⟩
    intro it hit
    simp only [applyWarehouseConstraints, List.mem_filterMap] at hit
    obtain ⟨a, ha, heq⟩ := hit
    simp only [constrainItem] at heq
    split_ifs at heq with hpos
    · injection heq with heq2
      subst heq2
      rfl
  · intro plan feedback h
    unfold modifyPlanBasedOnHumanInput
    refine final_reasoning_invariant _ (fallbackBlock_invariant _ ?_)
    refine ruleBlock_invariant _ _ _ _
      (fun it hi => mentioned_reduce_invariant (strLower feedback) it hi)
      (fun items hc => map_mentioned_reduce_id (strLower feedback) items hc) ?_
    refine ruleBlock_invariant _ _ _ _
      (fun it hi => reduceItem_itemInvariant _ it hi)
      (fun items hc => map_reduce_id _ items hc) ?_
    exact ruleBlock_invariant _ _ _ _
      (fun it hi => reduceItem_itemInvariant _ it hi)
      (fun items hc => map_reduce_id _ items hc) h

/-- Witness for `plan_invariants_maintained`: a concrete plan satisfying the
invariants still satisfies them after reconciliation of a feedback text. -/
theorem plan_invariants_maintained_witness :
    planInvariant (modifyPlanBasedOnHumanInput planQ100 "looks good") := by
  refine plan_invariants_maintained.2.2 planQ100 "looks good" ?_
  refine ⟨?_, ?_, ?_⟩
  · intro it hit
    simp only [planQ100, List.mem_singleton] at hit
    subst hit
    show (300:ℚ) = 100 * 3
    norm_num
  · show (300:ℚ) = ((planQ100.items).map (fun it => it.totalCost)).sum
    simp [planQ100]
  · show (100:ℚ) = ((planQ100.items).map (fun it => it.quantity)).sum
    simp [planQ100]

/-! C7: feedback reconciliation for budget-concern texts. -/

theorem reduceItem_itemId (factor : ℚ) (it : PlanItem) :
    (reduceItem factor it).itemId = it.itemId := by
  simp only [reduceItem]
  split_ifs with h
  · rfl
  · rfl

theorem reduceItem_itemName (factor : ℚ) (it : PlanItem) :
    (reduceItem factor it).itemName = it.itemName := by
  simp only [reduceItem]
  split_ifs with h
  · rfl
  · rfl

theorem reduceItem_quantity (factor : ℚ) (it : PlanItem) :
    (reduceItem factor it).quantity = max 1 ((⌊it.quantity * factor⌋ : ℤ) : ℚ) := by
  simp only [reduceItem]
  split_ifs with h
  · rfl
  · exact (not_ne_iff.mp h).symm

theorem itemMentioned_reduceItem (fb : String) (factor : ℚ) (it : PlanItem) :
    itemMentioned fb (reduceItem factor it) = itemMentioned fb it := by
  unfold itemMentioned
  rw [reduceItem_itemId, reduceItem_itemName]

/-- The only fixed points of the budget-concern reduction
`q ↦ max(1, floor(q × 0.85))` are quantities equal to 1. -/
theorem reduce85_fixed_point (q : ℚ)
    (h : (max 1 ((⌊q * 0.85⌋ : ℤ) : ℚ)) = q) : q = 1 := by
  rcases le_or_lt ((⌊q * 0.85⌋ : ℤ) : ℚ) 1 with h1 | h1
  · rw [max_eq_left h1] at h
    exact h.symm
  · rw [max_eq_right (le_of_lt h1)] at h
    have hf : ((⌊q * 0.85⌋ : ℤ) : ℚ) ≤ q * 0.85 := Int.floor_le _
    rw [h] at hf h1
    norm_num at hf
    linarith

theorem reduce95_unchanged_of_85 (it : PlanItem)
    (h : reduceChanges 0.85 it = false) : reduceChanges 0.95 it = false := by
  have h2 := of_decide_eq_false h
  have h3 : (max 1 ((⌊it.quantity * 0.85⌋ : ℤ) : ℚ)) = it.quantity := not_ne_iff.mp h2
  have h4 : it.quantity = 1 := reduce85_fixed_point _ h3
  apply decide_eq_false
  rw [h4]
  norm_num

theorem ruleBlock_not_triggered (trigger : List PlanItem → Bool)
    (g : PlanItem → PlanItem) (changedOf : List PlanItem → Bool)
    (pm : SimplePlan × Bool) (h : trigger pm.1.items = false) :
    ruleBlock trigger g changedOf pm = pm := by
  simp [ruleBlock, h]

theorem ruleBlock_triggered (trigger : List PlanItem → Bool)
    (g : PlanItem → PlanItem) (changedOf : List PlanItem → Bool)
    (pm : SimplePlan × Bool) (h : trigger pm.1.items = true) :
    (ruleBlock trigger g changedOf pm).1.items = pm.1.items.map g ∧
    (ruleBlock trigger g changedOf pm).2 = (pm.2 || changedOf pm.1.items) := by
  simp only [ruleBlock, h, if_true]
  split_ifs with hm
  · exact ⟨rfl, trivial⟩
  · exact ⟨rfl, trivial⟩

theorem fallbackBlock_skipped (pm : SimplePlan × Bool) (h : pm.2 = true) :
    fallbackBlock pm = pm := by
  simp [fallbackBlock, h]

theorem fallbackBlock_run (pm : SimplePlan × Bool) (h : pm.2 = false) :
    (fallbackBlock pm).1.items = pm.1.items.map (reduceItem 0.95) ∧
    (fallbackBlock pm).2 = pm.1.items.any (reduceChanges 0.95) := by
  simp only [fallbackBlock, h, Bool.not_false, if_true]
  split_ifs with hm
  · exact ⟨rfl, trivial⟩
  · exact ⟨rfl, trivial⟩

theorem modify_expensive_general (plan : SimplePlan) (fb : String)
    (hexp : strContains (strLower fb) "expensive" = true)
    (hvery : strContains (strLower fb) "very" = false)
    (hrisk : strContains (strLower fb) "risk" = false)
    (hcons : strContains (strLower fb) "conservative" = false)
    (hsafe : strContains (strLower fb) "safe" = false)
    (hment : ∀ it ∈ plan.items, itemMentioned (strLower fb) it = false) :
    (modifyPlanBasedOnHumanInput plan fb).items.map (fun it => it.quantity) =
      plan.items.map (fun it => max 1 ((⌊it.quantity * 0.85⌋ : ℤ) : ℚ)) := by
  unfold modifyPlanBasedOnHumanInput
  simp only [hvery, Bool.false_eq_true, if_false]
  set pm1 := ruleBlock
    (fun _ : List PlanItem => strContains (strLower fb) "budget" ||
      strContains (strLower fb) "cost" || strContains (strLower fb) "expensive")
    (reduceItem 0.85) (fun items => items.any (reduceChanges 0.85)) (plan, false)
    with hpm1
  have htr := ruleBlock_triggered
    (fun _ : List PlanItem => strContains (strLower fb) "budget" ||
      strContains (strLower fb) "cost" || strContains (strLower fb) "expensive")
    (reduceItem 0.85) (fun items => items.any (reduceChanges 0.85)) (plan, false)
    (by simp [hexp])
  have hitems1 : pm1.1.items = plan.items.map (reduceItem 0.85) := by
    rw [hpm1]
    exact htr.1
  have hmod1 : pm1.2 = plan.items.any (reduceChanges 0.85) := by
    rw [hpm1]
    simpa using htr.2
  rw [ruleBlock_not_triggered _ _ _ pm1 (by simp [hrisk, hcons, hsafe])]
  rw [ruleBlock_not_triggered _ _ _ pm1 (by
    rw [hitems1, List.any_map, List.any_eq_false]
    intro it hit
    simp [Function.comp, itemMentioned_reduceItem, hment it hit])]
  cases hch : plan.items.any (reduceChanges 0.85) with
  | true =>
    rw [fallbackBlock_skipped pm1 (by rw [hmod1, hch])]
    have hpm2 : pm1.2 = true := by rw [hmod1, hch]
    rw [hpm2]
    simp only [if_true]
    rw [hitems1, List.map_map]
    refine List.map_congr_left ?_
    intro it hit
    exact reduceItem_quantity 0.85 it
  | false =>
    have hpm2 : pm1.2 = false := by rw [hmod1, hch]
    have hid1 : plan.items.map (reduceItem 0.85) = plan.items := map_reduce_id 0.85 _ hch
    have h95 : plan.items.any (reduceChanges 0.95) = false := by
      rw [List.any_eq_false]
      intro it hit
      simp only [Bool.not_eq_true]
      refine reduce95_unchanged_of_85 it ?_
      have := List.any_eq_false.mp hch it hit
      simpa using this
    obtain ⟨hfb1, hfb2⟩ := fallbackBlock_run pm1 hpm2
    rw [hfb2, hitems1, hid1, h95]
    simp only [Bool.false_eq_true, if_false]
    rw [hfb1, hitems1, hid1, map_reduce_id 0.95 _ h95]
    refine List.map_congr_left ?_
    intro it hit
    have h3 : reduceChanges 0.85 it = false := by
      simpa using List.any_eq_false.mp hch it hit
    have h4 := not_ne_iff.mp (of_decide_eq_false h3)
    exact h4.symm

theorem ruleBlock_pairs (trigger : List PlanItem → Bool)
    (g : PlanItem → PlanItem) (changedOf : List PlanItem → Bool)
    (pm : SimplePlan × Bool)
    (hg : ∀ it : PlanItem, (g it).itemId = it.itemId ∧ (g it).itemName = it.itemName) :
    (ruleBlock trigger g changedOf pm).1.items.map
        (fun it => (it.itemId, it.itemName)) =
      pm.1.items.map (fun it => (it.itemId, it.itemName)) := by
  simp only [ruleBlock, recomputeTotals]
  split_ifs with ht hm
  · rw [List.map_map]
    refine List.map_congr_left ?_
    intro it hit
    simp [Function.comp, (hg it).1, (hg it).2]
  · rw [List.map_map]
    refine List.map_congr_left ?_
    intro it hit
    simp [Function.comp, (hg it).1, (hg it).2]
  · rfl

theorem fallbackBlock_pairs (pm : SimplePlan × Bool) :
    (fallbackBlock pm).1.items.map (fun it => (it.itemId, it.itemName)) =
      pm.1.items.map (fun it => (it.itemId, it.itemName)) := by
  simp only [fallbackBlock, recomputeTotals]
  split_ifs with ht hm
  · rw [List.map_map]
    refine List.map_congr_left ?_
    intro it hit
    simp [Function.comp, reduceItem_itemId, reduceItem_itemName]
  · rw [List.map_map]
    refine List.map_congr_left ?_
    intro it hit
    simp [Function.comp, reduceItem_itemId, reduceItem_itemName]
  · rfl

theorem modify_pairs (plan : SimplePlan) (fb : String) :
    (modifyPlanBasedOnHumanInput plan fb).items.map
        (fun it => (it.itemId, it.itemName)) =
      plan.items.map (fun it => (it.itemId, it.itemName)) := by
  unfold modifyPlanBasedOnHumanInput
  have hfinal : ∀ pm : SimplePlan × Bool,
      (if pm.2 then
        { pm.1 with reasoning := "Plan modified based on human feedback." }
        else pm.1).items = pm.1.items := by
    intro pm
    split_ifs
    · rfl
    · rfl
  rw [hfinal, fallbackBlock_pairs,
    ruleBlock_pairs _ _ _ _ (fun it => by
      constructor
      · split_ifs
        · exact reduceItem_itemId _ it
        · rfl
      · split_ifs
        · exact reduceItem_itemName _ it
        · rfl),
    ruleBlock_pairs _ _ _ _ (fun it => ⟨reduceItem_itemId _ it, reduceItem_itemName _ it⟩),
    ruleBlock_pairs _ _ _ _ (fun it => ⟨reduceItem_itemId _ it, reduceItem_itemName _ it⟩)]

/-- C7: feedback whose lowercased text contains "expensive" but none of
"very", "risk", "conservative", "safe" or any item name/id reduces every
item's quantity to `max(1, floor(quantity × 0.85))` exactly once per
application; reapplying the same feedback reduces again by the same rule, so
reconciliation is not idempotent — concretely, a quantity of 100 becomes 85
after one application and 72 after two, and the twice-modified plan differs
from the once-modified plan. -/
theorem expensive_feedback_not_idempotent :
    (∀ (plan : SimplePlan) (fb : String),
      strContains (strLower fb) "expensive" = true →
      strContains (strLower fb) "very" = false →
      strContains (strLower fb) "risk" = false →
      strContains (strLower fb) "conservative" = false →
      strContains (strLower fb) "safe" = false →
      (∀ it ∈ plan.items, itemMentioned (strLower fb) it = false) →
      (modifyPlanBasedOnHumanInput plan fb).items.map (fun it => it.quantity) =
        plan.items.map (fun it => max 1 ((⌊it.quantity * 0.85⌋ : ℤ) : ℚ))) ∧
    ((modifyPlanBasedOnHumanInput planQ100 "too expensive").items.map
        (fun it => it.quantity) = [85] ∧
      (modifyPlanBasedOnHumanInput
        (modifyPlanBasedOnHumanInput planQ100 "too expensive")
        "too expensive").items.map (fun it => it.quantity) = [72] ∧
      modifyPlanBasedOnHumanInput
        (modifyPlanBasedOnHumanInput planQ100 "too expensive") "too expensive" ≠
        modifyPlanBasedOnHumanInput planQ100 "too expensive") := by
  have hexp : strContains (strLower "too expensive") "expensive" = true := by decide
  have hvery : strContains (strLower "too expensive") "very" = false := by decide
  have hrisk : strContains (strLower "too expensive") "risk" = false := by decide
  have hcons : strContains (strLower "too expensive") "conservative" = false := by decide
  have hsafe : strContains (strLower "too expensive") "safe" = false := by decide
  have hment1 : ∀ it ∈ planQ100.items,
      itemMentioned (strLower "too expensive") it = false := by
    intro it hit
    simp only [planQ100, List.mem_singleton] at hit
    subst hit
    decide
  have honce : (modifyPlanBasedOnHumanInput planQ100 "too expensive").items.map
      (fun it => it.quantity) = [85] := by
    rw [modify_expensive_general planQ100 "too expensive" hexp hvery hrisk hcons hsafe hment1]
    norm_num [planQ100, max_def]
  have hment2 : ∀ it ∈ (modifyPlanBasedOnHumanInput planQ100 "too expensive").items,
      itemMentioned (strLower "too expensive") it = false := by
    intro it hit
    have hpair := List.mem_map_of_mem (fun it : PlanItem => (it.itemId, it.itemName)) hit
    rw [modify_pairs planQ100 "too expensive"] at hpair
    simp only [planQ100, List.map_cons, List.map_nil, List.mem_singleton,
      Prod.mk.injEq] at hpair
    unfold itemMentioned
    rw [hpair.1, hpair.2]
    decide
  have htwice : (modifyPlanBasedOnHumanInput
      (modifyPlanBasedOnHumanInput planQ100 "too expensive")
      "too expensive").items.map (fun it => it.quantity) = [72] := by
    rw [modify_expensive_general _ "too expensive" hexp hvery hrisk hcons hsafe hment2]
    have hmm : (modifyPlanBasedOnHumanInput planQ100 "too expensive").items.map
        (fun it => max 1 ((⌊it.quantity * 0.85⌋ : ℤ) : ℚ)) =
      ((modifyPlanBasedOnHumanInput planQ100 "too expensive").items.map
        (fun it => it.quantity)).map (fun q => max 1 ((⌊q * 0.85⌋ : ℤ) : ℚ)) := by
      rw [List.map_map]
      rfl
    rw [hmm, honce]
    norm_num [max_def]
  refine ⟨fun plan fb h1 h2 h3 h4 h5 h6 =>
    modify_expensive_general plan fb h1 h2 h3 h4 h5 h6, honce, htwice, ?_⟩
  intro heq
  rw [heq, honce] at htwice
  norm_num at htwice

/-- Witness for `expensive_feedback_not_idempotent` at a concrete plan and
feedback text, discharging the string hypotheses. -/
theorem expensive_feedback_not_idempotent_witness :
    (modifyPlanBasedOnHumanInput planQ150 "too expensive").items.map
      (fun it => it.quantity) =
      planQ150.items.map (fun it => max 1 ((⌊it.quantity * 0.85⌋ : ℤ) : ℚ)) := by
  refine expensive_feedback_not_idempotent.1 planQ150 "too expensive"
    (by decide) (by decide) (by decide) (by decide) (by decide) ?_
  intro it hit
  simp only [planQ150, List.mem_singleton] at hit
  subst hit
  decide

/-! C2 and C8: the workflow gate and the workflow error boundary. -/

theorem checkHumanInputRequired_iff (skuCostData : CostTable) (plan : SimplePlan) :
    checkHumanInputRequired skuCostData plan = true ↔
      ∃ item ∈ plan.items, ∃ sc,
        skuCostData.lookup (resolveProductId item.itemId) = some sc ∧
        item.quantity * sc.holdingCost > item.quantity * sc.shortageCost := by
  unfold checkHumanInputRequired
  rw [List.any_eq_true]
  constructor
  · rintro ⟨item, hmem, hcond⟩
    refine ⟨item, hmem, ?_⟩
    dsimp only at hcond
    cases hl : skuCostData.lookup (resolveProductId item.itemId) with
    | none => rw [hl] at hcond; simp at hcond
    | some sc =>
      rw [hl] at hcond
      exact ⟨sc, rfl, of_decide_eq_true hcond⟩
  · rintro ⟨item, hmem, sc, hl, hgt⟩
    refine ⟨item, hmem, ?_⟩
    dsimp only
    rw [hl]
    exact decide_eq_true hgt

/-- C2: a fault-free workflow run ends in the `waiting_for_input` state **iff**
some item of the capacity-constrained plan, with its cost entry resolved by
the trailing segment of its composite item id, satisfies
`quantity × holdingCost > quantity × shortageCost`; an item without a cost
entry never triggers the gate (the existential requires a cost entry), and
when no item triggers it the run proceeds directly to `complete`. -/
theorem gate_iff_overholding :
    ∀ inp : WorkflowInputs,
      ((runWorkflow ⟨none, none, none, none⟩ inp).status = WStatus.waitingForInput ↔
        ∃ item ∈ (finalPlan inp).items, ∃ sc,
          inp.skuCostData.lookup (resolveProductId item.itemId) = some sc ∧
          item.quantity * sc.holdingCost > item.quantity * sc.shortageCost) ∧
      ((runWorkflow ⟨none, none, none, none⟩ inp).status ≠ WStatus.waitingForInput →
        (runWorkflow ⟨none, none, none, none⟩ inp).status = WStatus.complete) := by
  intro inp
  unfold runWorkflow
  dsimp only
  by_cases hc : checkHumanInputRequired inp.skuCostData
      (applyWarehouseConstraints inp.warehouseConstraints
        (generatePurchasePlanRefined inp.skuCostData inp.budgetData
          (analyzeDemandRefined inp.names (newestPredictions inp.preds inp.itemIds)))) = true
  · rw [if_pos hc]
    constructor
    · exact iff_of_true rfl ((checkHumanInputRequired_iff _ _).mp hc)
    · intro h
      exact absurd rfl h
  · rw [if_neg hc]
    constructor
    · refine iff_of_false (by simp) ?_
      intro hex
      exact hc ((checkHumanInputRequired_iff _ _).mpr hex)
    · intro _
      rfl

/-- A forecast row used by the concrete gate example. -/
def predW : CSVPrediction := ⟨"p7", "P7", 4, 3, 5, none, 0⟩

/-- Workflow inputs whose single item has holding cost 6 above shortage cost
2, so the resulting plan item (quantity 4) triggers the human-review gate. -/
def inpW : WorkflowInputs := ⟨["p7"], [predW], [], [("p7", ⟨6, 2⟩)], [], []⟩

theorem newsvendor_target4 : calculateNewsvendorQuantity 4 (16/5) (24/5) 6 2 = .val 4 := by
  norm_num [calculateNewsvendorQuantity, jsDivV, inverseNormalCDF,
    inverseNormalCDFBody, jsMul, jsAdd, jsMax0, jsCeil]

theorem finalPlan_inpW : (finalPlan inpW).items = [⟨"p7", "P7", 4, 12, 48⟩] := by
  have hres : resolveProductId "p7" = "p7" := by decide
  norm_num [finalPlan, inpW, predW, newestPredictions, sortDescBy, insertDescBy,
    analyzeDemandRefined, generatePurchasePlanRefined, genGo, mkCandidate,
    getCurrentBudget, applyWarehouseConstraints, getCurrentWarehouseCapacity,
    constrainItem, calculateConfidence, hres, newsvendor_target4, min_def, max_def,
    List.lookup, List.find?, List.filterMap_cons, List.filterMap_nil]

/-- Witness for `gate_iff_overholding`: the concrete run over `inpW` ends
waiting for input, via an item with `4 × 6 > 4 × 2`. -/
theorem gate_iff_overholding_witness :
    (runWorkflow ⟨none, none, none, none⟩ inpW).status = WStatus.waitingForInput := by
  refine (gate_iff_overholding inpW).1.mpr ?_
  refine ⟨⟨"p7", "P7", 4, 12, 48⟩, ?_, ⟨6, 2⟩, ?_, ?_⟩
  · rw [finalPlan_inpW]
    simp
  · decide
  · norm_num

/-- C8: a workflow run never returns a `running` or `ready` state: every run
ends `waiting_for_input` or `complete`; when a stage raises an uncaught
exception, the catch boundary appends `Error: <message>` to the message
transcript, forces the status to `complete`, and keeps the partial results
accumulated so far (no demand results or plan for a load failure, the demand
results but no plan for a plan-stage failure, and the pre-constraint plan for
a risk-stage failure). -/
theorem workflow_never_stuck :
    ∀ (faults : StageFaults) (inp : WorkflowInputs),
      ((runWorkflow faults inp).status = WStatus.waitingForInput ∨
        (runWorkflow faults inp).status = WStatus.complete) ∧
      (∀ e, faults.firstFault = some e →
        (runWorkflow faults inp).status = WStatus.complete ∧
        (runWorkflow faults inp).messages = ["Error: " ++ e]) ∧
      (faults.firstFault = none → (runWorkflow faults inp).messages = []) ∧
      (∀ e, faults.loadFault = some e →
        (runWorkflow faults inp).demandResults = [] ∧
        (runWorkflow faults inp).purchasePlan = none) ∧
      (∀ e, faults.loadFault = none → faults.analyzeFault = none →
        faults.planFault = some e →
        (runWorkflow faults inp).demandResults =
          analyzeDemandRefined inp.names (newestPredictions inp.preds inp.itemIds) ∧
        (runWorkflow faults inp).purchasePlan = none) ∧
      (∀ e, faults.loadFault = none → faults.analyzeFault = none →
        faults.planFault = none → faults.riskFault = some e →
        (runWorkflow faults inp).purchasePlan =
          some (generatePurchasePlanRefined inp.skuCostData inp.budgetData
            (analyzeDemandRefined inp.names (newestPredictions inp.preds inp.itemIds)))) := by
  intro faults inp
  obtain ⟨lf, af, pf, rf⟩ := faults
  cases lf with
  | some e => simp [runWorkflow, errorReturn, StageFaults.firstFault]
  | none =>
    cases af with
    | some e => simp [runWorkflow, errorReturn, StageFaults.firstFault]
    | none =>
      cases pf with
      | some e => simp [runWorkflow, errorReturn, StageFaults.firstFault]
      | none =>
        cases rf with
        | some e => simp [runWorkflow, errorReturn, StageFaults.firstFault]
        | none =>
          by_cases hc : checkHumanInputRequired inp.skuCostData
              (applyWarehouseConstraints inp.warehouseConstraints
                (generatePurchasePlanRefined inp.skuCostData inp.budgetData
                  (analyzeDemandRefined inp.names
                    (newestPredictions inp.preds inp.itemIds)))) = true
          · simp [runWorkflow, StageFaults.firstFault, hc]
          · simp [runWorkflow, StageFaults.firstFault, hc]

/-- Witness for `workflow_never_stuck`: a fault injected at the plan stage of
the concrete run yields a `complete` state carrying the error message. -/
theorem workflow_never_stuck_witness :
    (runWorkflow ⟨none, none, some "boom", none⟩ inpW).status = WStatus.complete ∧
    (runWorkflow ⟨none, none, some "boom", none⟩ inpW).messages = ["Error: boom"] :=
  (workflow_never_stuck ⟨none, none, some "boom", none⟩ inpW).2.1 "boom" rfl

namespace AgentFlow

/-- Two forecast rows that agree on everything except the interval bounds
`lo` and `hi`. -/
def sameButInterval (p p' : CSVPrediction) : Prop :=
  p.item_id = p'.item_id ∧ p.name = p'.name ∧ p.yhat = p'.yhat ∧
  p.confidence_score = p'.confidence_score ∧ p.dateMs = p'.dateMs

/-- Two demand results that agree on the fields read by the plan generator. -/
def demandKey (d d' : DemandResult) : Prop :=
  d.itemId = d'.itemId ∧ d.itemName = d'.itemName ∧
  d.targetQuantity = d'.targetQuantity

end AgentFlow

open AgentFlow in
theorem analyze_demandKey (names : List (String × String)) :
    ∀ (preds preds' : List CSVPrediction), List.Forall₂ sameButInterval preds preds' →
      List.Forall₂ demandKey (analyzeDemandRefined names preds)
        (analyzeDemandRefined names preds') := by
  intro preds preds' h
  induction h with
  | nil => exact List.Forall₂.nil
  | cons hpair hrest ih =>
    refine List.Forall₂.cons ?_ ih
    obtain ⟨h1, h2, h3, _, _⟩ := hpair
    refine ⟨?_, ?_, ?_⟩
    · exact h1
    · show (match names.lookup _ with | some n => n | none => _) =
        (match names.lookup _ with | some n => n | none => _)
      rw [h1, h2]
    · exact h3

open AgentFlow in
theorem find?_demandKey (id : String) :
    ∀ (full full' : List DemandResult), List.Forall₂ demandKey full full' →
      (full.find? (fun x => x.itemId == id) = none ∧
        full'.find? (fun x => x.itemId == id) = none) ∨
      (∃ d d', full.find? (fun x => x.itemId == id) = some d ∧
        full'.find? (fun x => x.itemId == id) = some d' ∧ demandKey d d') := by
  intro full full' h
  induction h with
  | nil => exact Or.inl ⟨rfl, rfl⟩
  | cons hpair hrest ih =>
    rename_i a b l l'
    by_cases hid : a.itemId == id
    · have hid' : (b.itemId == id) = true := by
        rw [← hpair.1]
        exact hid
      right
      exact ⟨a, b, List.find?_cons_of_pos _ hid, List.find?_cons_of_pos _ hid', hpair⟩
    · have hid' : ¬(b.itemId == id) = true := by
        rw [← hpair.1]
        exact hid
      have e1 : List.find? (fun x => x.itemId == id) (a :: l) =
          List.find? (fun x => x.itemId == id) l :=
        List.find?_cons_of_neg _ (by simpa using hid)
      have e2 : List.find? (fun x => x.itemId == id) (b :: l') =
          List.find? (fun x => x.itemId == id) l' :=
        List.find?_cons_of_neg _ (by simpa using hid')
      rw [e1, e2]
      exact ih

open AgentFlow in
theorem mkCandidate_congr (skuCostData : CostTable)
    (full full' : List DemandResult)
    (hfull : List.Forall₂ demandKey full full')
    (d d' : DemandResult) (hd : demandKey d d') :
    mkCandidate skuCostData full d = mkCandidate skuCostData full' d' := by
  cases hl : List.lookup (resolveProductId d'.itemId) skuCostData with
  | none => simp only [mkCandidate, hd.1, hl]
  | some sku =>
    rcases find?_demandKey d'.itemId full full' hfull with ⟨hn, hn'⟩ | ⟨a, b, ha, hb, hab⟩
    · simp only [mkCandidate, hd.1, hl, hn, hn']
    · simp only [mkCandidate, hd.1, hl, ha, hb]
      rw [hd.2.1, hd.2.2, hab.2.2]

open AgentFlow in
theorem genGo_congr (skuCostData : CostTable) (weeklyBudget : ℚ)
    (full full' : List DemandResult)
    (hfull : List.Forall₂ demandKey full full') :
    ∀ (rem rem' : List DemandResult), List.Forall₂ demandKey rem rem' →
      ∀ (acc : List PlanItem) (tc tu : ℚ),
        genGo skuCostData weeklyBudget full rem acc tc tu =
          genGo skuCostData weeklyBudget full' rem' acc tc tu := by
  intro rem rem' h
  induction h with
  | nil => intro acc tc tu; rfl
  | cons hpair hrest ih =>
    rename_i d d' l l'
    intro acc tc tu
    have hmk := mkCandidate_congr skuCostData full full' hfull d d' hpair
    cases hc : mkCandidate skuCostData full d with
    | none =>
      have hc' : mkCandidate skuCostData full' d' = none := by rw [← hmk]; exact hc
      simp only [genGo, hc, hc']
      exact ih acc tc tu
    | some pit =>
      have hc' : mkCandidate skuCostData full' d' = some pit := by rw [← hmk]; exact hc
      simp only [genGo, hc, hc']
      split_ifs with hb
      · exact ih _ _ _
      · exact ih acc tc tu

open AgentFlow in
theorem generatePlan_congr (skuCostData : CostTable) (budgetData : List BudgetRecord)
    (names : List (String × String)) (preds preds' : List CSVPrediction)
    (h : List.Forall₂ sameButInterval preds preds') :
    generatePurchasePlanRefined skuCostData budgetData
        (analyzeDemandRefined names preds) =
      generatePurchasePlanRefined skuCostData budgetData
        (analyzeDemandRefined names preds') := by
  have hd := analyze_demandKey names preds preds' h
  simp only [generatePurchasePlanRefined]
  rw [genGo_congr skuCostData (getCurrentBudget budgetData) _ _ hd _ _ hd [] 0 0]

open AgentFlow in
theorem find?_self_of_nodup :
    ∀ (drs : List DemandResult), ((drs.map (fun d => d.itemId)).Nodup) →
      ∀ d ∈ drs, drs.find? (fun x => x.itemId == d.itemId) = some d := by
  intro drs
  induction drs with
  | nil => intro _ d hd; simp at hd
  | cons a rest ih =>
    intro hnd d hd
    simp only [List.map_cons, List.nodup_cons] at hnd
    rcases List.mem_cons.mp hd with rfl | hmem
    · exact List.find?_cons_of_pos _ (by simp)
    · have hne : ¬(a.itemId == d.itemId) = true := by
        simp only [beq_iff_eq]
        intro heq
        exact hnd.1 (heq ▸ List.mem_map_of_mem (fun x => x.itemId) hmem)
      have e1 : List.find? (fun x => x.itemId == d.itemId) (a :: rest) =
          List.find? (fun x => x.itemId == d.itemId) rest :=
        List.find?_cons_of_neg _ hne
      rw [e1]
      exact ih hnd.2 d hmem

open AgentFlow in
theorem mkCandidate_band (skuCostData : CostTable) (drs : List DemandResult)
    (hnd : ((drs.map (fun d => d.itemId)).Nodup))
    (d : DemandResult) (hd : d ∈ drs) (pit : PlanItem)
    (h : mkCandidate skuCostData drs d = some pit) :
    pit.itemId = d.itemId ∧ ∃ sc,
      skuCostData.lookup (resolveProductId d.itemId) = some sc ∧
      JSNum.val pit.quantity = calculateNewsvendorQuantity d.targetQuantity
        (d.targetQuantity * 0.8) (d.targetQuantity * 1.2)
        sc.holdingCost sc.shortageCost := by
  have hfind := find?_self_of_nodup drs hnd d hd
  cases hl : List.lookup (resolveProductId d.itemId) skuCostData with
  | none =>
    rw [mkCandidate, hl] at h
    simp at h
  | some sku =>
    rw [mkCandidate, hl] at h
    simp only [hfind] at h
    cases hc : calculateNewsvendorQuantity d.targetQuantity
        (d.targetQuantity * 0.8) (d.targetQuantity * 1.2)
        sku.holdingCost sku.shortageCost with
    | val q =>
      rw [hc] at h
      injection h with h2
      subst h2
      exact ⟨rfl, sku, rfl, by rw [hc]⟩
    | nan => rw [hc] at h; exact absurd h (by simp)
    | negInf => rw [hc] at h; exact absurd h (by simp)
    | posInf => rw [hc] at h; exact absurd h (by simp)

open AgentFlow in
theorem genGo_items_origin (skuCostData : CostTable) (weeklyBudget : ℚ)
    (full : List DemandResult) :
    ∀ (rem : List DemandResult) (acc : List PlanItem) (tc tu : ℚ),
      ∀ pit ∈ (genGo skuCostData weeklyBudget full rem acc tc tu).1,
        pit ∈ acc ∨ ∃ d ∈ rem, mkCandidate skuCostData full d = some pit := by
  intro rem
  induction rem with
  | nil =>
    intro acc tc tu pit hp
    exact Or.inl hp
  | cons d rest ih =>
    intro acc tc tu pit hp
    cases hc : mkCandidate skuCostData full d with
    | none =>
      simp only [genGo, hc] at hp
      rcases ih acc tc tu pit hp with h1 | ⟨x, hx, hmk⟩
      · exact Or.inl h1
      · exact Or.inr ⟨x, List.mem_cons_of_mem _ hx, hmk⟩
    | some pit2 =>
      simp only [genGo, hc] at hp
      split_ifs at hp with hb
      · rcases ih (acc ++ [pit2]) _ _ pit hp with h1 | ⟨x, hx, hmk⟩
        · rcases List.mem_append.mp h1 with h2 | h2
          · exact Or.inl h2
          · simp only [List.mem_singleton] at h2
            subst h2
            exact Or.inr ⟨d, List.mem_cons_self _ _, hc⟩
        · exact Or.inr ⟨x, List.mem_cons_of_mem _ hx, hmk⟩
      · rcases ih acc tc tu pit hp with h1 | ⟨x, hx, hmk⟩
        · exact Or.inl h1
        · exact Or.inr ⟨x, List.mem_cons_of_mem _ hx, hmk⟩

open AgentFlow in
theorem analyze_ids (names : List (String × String)) (preds : List CSVPrediction) :
    (analyzeDemandRefined names preds).map (fun d => d.itemId) =
      preds.map (fun p => p.item_id) := by
  unfold analyzeDemandRefined
  rw [List.map_map]
  rfl

open AgentFlow in
theorem analyze_mem (names : List (String × String)) (preds : List CSVPrediction)
    (d : DemandResult) (hd : d ∈ analyzeDemandRefined names preds) :
    ∃ p ∈ preds, d.itemId = p.item_id ∧ d.targetQuantity = p.yhat := by
  unfold analyzeDemandRefined at hd
  rw [List.mem_map] at hd
  obtain ⟨p, hp, rfl⟩ := hd
  exact ⟨p, hp, rfl, rfl⟩

open AgentFlow in
theorem foldl_distinct_nodup (preds : List CSVPrediction) :
    ∀ acc : List String, acc.Nodup →
      (preds.foldl (fun acc p =>
        if acc.contains p.item_id then acc else acc ++ [p.item_id]) acc).Nodup := by
  induction preds with
  | nil => intro acc h; exact h
  | cons p rest ih =>
    intro acc h
    simp only [List.foldl_cons]
    by_cases hc : acc.contains p.item_id
    · rw [if_pos hc]
      exact ih acc h
    · rw [if_neg hc]
      refine ih _ ?_
      rw [List.nodup_append]
      refine ⟨h, List.nodup_singleton _, ?_⟩
      intro x hx
      simp only [List.mem_singleton]
      intro heq
      subst heq
      exact hc (List.elem_eq_true_of_mem hx)

open AgentFlow in
theorem head?_newest_id (preds : List CSVPrediction) (id : String)
    (p : CSVPrediction)
    (h : (sortDescBy (fun q => q.dateMs)
      (preds.filter (fun q => q.item_id == id))).head? = some p) :
    p.item_id = id := by
  have hm := head?_mem h
  rw [mem_sortDescBy] at hm
  have := List.mem_filter.mp hm
  simpa using this.2

open AgentFlow in
theorem filterMap_newest_map_sublist (preds : List CSVPrediction) :
    ∀ ids : List String,
      ((ids.filterMap (fun id => (sortDescBy (fun q => q.dateMs)
        (preds.filter (fun q => q.item_id == id))).head?)).map
          (fun p => p.item_id)).Sublist ids := by
  intro ids
  induction ids with
  | nil => simp
  | cons id rest ih =>
    simp only [List.filterMap_cons]
    cases h : (sortDescBy (fun q => q.dateMs)
        (preds.filter (fun q => q.item_id == id))).head? with
    | none => exact ih.cons id
    | some p =>
      simp only [List.map_cons]
      rw [head?_newest_id preds id p h]
      exact ih.cons₂ id

open AgentFlow in
theorem newestPredictions_ids_nodup (preds : List CSVPrediction)
    (itemIds : List String) :
    ((newestPredictions preds itemIds).map (fun p => p.item_id)).Nodup := by
  unfold newestPredictions
  have hnodup : (preds.foldl (fun acc p =>
      if acc.contains p.item_id then acc else acc ++ [p.item_id]) []).Nodup :=
    foldl_distinct_nodup preds [] List.nodup_nil
  refine List.Nodup.sublist ?_ hnodup
  refine List.Sublist.trans ?_ (filterMap_newest_map_sublist preds _)
  exact List.Sublist.map _ (List.filter_sublist _)

def predB1 : AgentFlow.CSVPrediction := ⟨"a", "A", 2, 1, 3, none, 0⟩
def predB2 : AgentFlow.CSVPrediction := ⟨"a", "A", 2, 0, 10, none, 0⟩
def costsB : AgentFlow.CostTable := [("a", ⟨1, 5⟩)]

open AgentFlow in
theorem newsvendor_mean2_eval :
    calculateNewsvendorQuantity 2 (8/5) (12/5) 1 5 = .val 3 := by
  norm_num [calculateNewsvendorQuantity, jsDivV, inverseNormalCDF,
    inverseNormalCDFBody, jsMul, jsAdd, jsMax0, jsCeil]
  rw [show (3:ℚ) = ((3:ℤ):ℚ) by norm_num, Int.cast_inj, Int.ceil_eq_iff]
  norm_num

open AgentFlow in
/-- C10: in the refined pipeline the optimizer is always called with mean
equal to the raw forecast `yhat` and the band `[0.8 × yhat, 1.2 × yhat]`
(whose half-width rule gives `stdDev = 0.4 × yhat / 3.92`): every item of the
generated plan carries a quantity equal to that newsvendor value for its
prediction (the grouped predictions fed by the workflow have pairwise
distinct ids, as required), and the record's own interval bounds `lo`, `hi`
never influence the generated plan — two prediction lists differing only in
`lo` and `hi` produce identical plans. -/
theorem band_from_yhat_only :
    (∀ (names : List (String × String)) (skuCostData : CostTable)
        (budgetData : List BudgetRecord) (preds : List CSVPrediction),
      ((preds.map (fun p => p.item_id)).Nodup) →
      ∀ pit ∈ (generatePurchasePlanRefined skuCostData budgetData
          (analyzeDemandRefined names preds)).items,
        ∃ p ∈ preds, pit.itemId = p.item_id ∧ ∃ sc,
          skuCostData.lookup (resolveProductId p.item_id) = some sc ∧
          JSNum.val pit.quantity = calculateNewsvendorQuantity p.yhat
            (p.yhat * 0.8) (p.yhat * 1.2) sc.holdingCost sc.shortageCost) ∧
    (∀ (preds : List CSVPrediction) (itemIds : List String),
      ((newestPredictions preds itemIds).map (fun p => p.item_id)).Nodup) ∧
    (∀ y : ℚ, (y * 1.2 - y * 0.8) / (2 * 1.96) = 0.4 * y / 3.92) ∧
    (∀ (names : List (String × String)) (skuCostData : CostTable)
        (budgetData : List BudgetRecord) (preds preds' : List CSVPrediction),
      List.Forall₂ sameButInterval preds preds' →
      generatePurchasePlanRefined skuCostData budgetData
          (analyzeDemandRefined names preds) =
        generatePurchasePlanRefined skuCostData budgetData
          (analyzeDemandRefined names preds')) := by
  refine ⟨?_, newestPredictions_ids_nodup, ?_, ?_⟩
  · intro names skuCostData budgetData preds hnd pit hp
    have hnd2 : ((analyzeDemandRefined names preds).map (fun d => d.itemId)).Nodup := by
      rw [analyze_ids]
      exact hnd
    simp only [generatePurchasePlanRefined] at hp
    rcases genGo_items_origin skuCostData (getCurrentBudget budgetData)
      (analyzeDemandRefined names preds) (analyzeDemandRefined names preds)
      [] 0 0 pit hp with h1 | ⟨d, hdm, hmk⟩
    · simp at h1
    · obtain ⟨hid, sc, hl, hq⟩ := mkCandidate_band skuCostData
        (analyzeDemandRefined names preds) hnd2 d hdm pit hmk
      obtain ⟨p, hpmem, hpid, hpyhat⟩ := analyze_mem names preds d hdm
      refine ⟨p, hpmem, by rw [hid, hpid], sc, ?_, ?_⟩
      · rw [← hpid]
        exact hl
      · rw [hq, hpyhat]
  · intro y
    ring
  · intro names skuCostData budgetData preds preds' h
    exact generatePlan_congr skuCostData budgetData names preds preds' h

open AgentFlow in
theorem genPlan_predB1 :
    (generatePurchasePlanRefined costsB [] (analyzeDemandRefined [] [predB1])).items =
      [⟨"a", "A", 3, 15, 45⟩] := by
  have hres : resolveProductId "a" = "a" := by decide
  norm_num [generatePurchasePlanRefined, genGo, mkCandidate, analyzeDemandRefined,
    calculateConfidence, getCurrentBudget, costsB, predB1, hres,
    newsvendor_mean2_eval, List.lookup, List.find?]

open AgentFlow in
theorem band_from_yhat_only_witness :
    (∃ p ∈ [predB1], (⟨"a", "A", 3, 15, 45⟩ : PlanItem).itemId = p.item_id ∧
      ∃ sc, costsB.lookup (resolveProductId p.item_id) = some sc ∧
        JSNum.val (⟨"a", "A", 3, 15, 45⟩ : PlanItem).quantity =
          calculateNewsvendorQuantity p.yhat (p.yhat * 0.8) (p.yhat * 1.2)
            sc.holdingCost sc.shortageCost) ∧
    generatePurchasePlanRefined costsB [] (analyzeDemandRefined [] [predB1]) =
      generatePurchasePlanRefined costsB [] (analyzeDemandRefined [] [predB2]) := by
  constructor
  · refine band_from_yhat_only.1 [] costsB [] [predB1] (by simp) ⟨"a", "A", 3, 15, 45⟩ ?_
    rw [genPlan_predB1]
    simp
  · refine band_from_yhat_only.2.2.2 [] costsB [] [predB1] [predB2] ?_
    refine List.Forall₂.cons ?_ List.Forall₂.nil
    exact ⟨rfl, rfl, rfl, rfl, rfl⟩
